import Mathlib

/-!
Verification of the world-clock utility's timezone core (package `clock` of
repository cv/t) against its specification.

Shallow embedding conventions:
* Instants are `Int` seconds since the Unix epoch (the program works at
  second granularity for every property treated here; `time.Time`
  nanoseconds play no role in the embedded functions).
* A `Zone` is a base UTC offset plus an ascending list of transition
  instants paired with the offset in force from that instant on.  This is
  the information the Go runtime's timezone database provides through
  `Time.Zone()` / `Location.lookup`.
* Calendar dates are represented by their epoch day number (the civil
  `(year, month, day)` triple of Go's `Time.Date()` is isomorphic to the
  day count since 1970-01-01, and the source only ever converts a date
  back through `time.Date`, so composing the two is day-number identity).
* The external IATA lookup table (`codes.IATA`, outside this repository's
  core sources) and `time.LoadLocation` are abstracted as parameters
  `IATA : String → Option String` and `loadLocation : String → Option Zone`.
* Go's `/` and `%` on `int` truncate toward zero: they are embedded as
  `Int.tdiv` / `Int.tmod`.  Euclidean `%` (always nonnegative remainder)
  is used only where the embedding itself needs wall-clock decomposition.
-/

namespace T

/-- ASCII upper-casing of one character, the effect of Go's
`strings.ToUpper` on the ASCII inputs handled by the program. -/
def upChar (c : Char) : Char :=
  if 'a' ≤ c ∧ c ≤ 'z' then Char.ofNat (c.toNat - 32) else c

/-- ASCII upper-casing of a string (Go `strings.ToUpper` on ASCII data). -/
def goToUpper (s : String) : String := ⟨s.data.map upChar⟩

/-- A timezone: offset `base` (seconds east of UTC) before the first
transition, and transitions `(instant, offsetFromThisInstantOn)` in
ascending instant order. -/
structure Zone where
  base : Int
  transitions : List (Int × Int)
deriving DecidableEq, Repr

/-- The transition instants are strictly ascending (what tzdata provides). -/
def Zone.WellFormed (z : Zone) : Prop :=
  List.Chain' (fun a b => a.1 < b.1) z.transitions

instance (z : Zone) : Decidable z.WellFormed := by
  unfold Zone.WellFormed; infer_instance

/-- Zone lookup: offset in force at instant `t`, together with the start
and end of the containing zone window (`none` meaning unbounded), as Go's
`Location.lookup` reports. -/
def lookupAux (base : Int) (lo : Option Int) :
    List (Int × Int) → Int → Int × Option Int × Option Int
  | [], _ => (base, lo, none)
  | (ti, off) :: rest, t =>
      if t < ti then (base, lo, some ti) else lookupAux off (some ti) rest t

/-- Offset, window start and window end at instant `t`. -/
def Zone.lookup (z : Zone) (t : Int) : Int × Option Int × Option Int :=
  lookupAux z.base none z.transitions t

/-- The UTC offset (seconds east) in force at instant `t`, i.e. the second
component of Go's `Time.Zone()`. -/
def Zone.offsetAt (z : Zone) (t : Int) : Int := (z.lookup t).1

/-- Local wall-clock seconds of instant `t` in zone `z`. -/
def Zone.wallAt (z : Zone) (t : Int) : Int := t + z.offsetAt t

/-- Go `Time.Hour()` of instant `t` viewed in zone `z`. -/
def Zone.hourAt (z : Zone) (t : Int) : Int := (z.wallAt t % 86400) / 3600

/-- Go `Time.Minute()` of instant `t` viewed in zone `z`. -/
def Zone.minuteAt (z : Zone) (t : Int) : Int := (z.wallAt t % 86400 % 3600) / 60

/-- Epoch day number of the calendar date of instant `t` viewed in zone
`z` (the `(Year, Month, Day)` of Go's `Time.Date()` as a day count). -/
def Zone.dayAt (z : Zone) (t : Int) : Int := (z.wallAt t).fdiv 86400

/-- Does optional lower bound `lo` strictly exceed `x`? (`none` = -∞). -/
def belowLo (lo : Option Int) (x : Int) : Bool :=
  match lo with
  | some s => x < s
  | none => false

/-- Is `x` at or past optional upper bound `hi`? (`none` = +∞). -/
def atOrPastHi (hi : Option Int) (x : Int) : Bool :=
  match hi with
  | some e => e ≤ x
  | none => false

/-- Go's `time.Date` core: given the requested local wall-clock seconds
`u` (date and clock combined, interpreted as if UTC), produce the instant
Go constructs.  This is the `lookup` / window-adjustment algorithm of
`time.Date`: look up the zone at the pseudo-instant `u`; if the offset is
nonzero and `u - offset` falls outside the window found, re-look-up at the
window edge; finally subtract the chosen offset. -/
def goDate (z : Zone) (u : Int) : Int :=
  let l := z.lookup u
  let offset := l.1
  let lo := l.2.1
  let hi := l.2.2
  if offset = 0 then u
  else
    let utc := u - offset
    let offset2 :=
      if belowLo lo utc then (z.lookup (lo.getD 0 - 1)).1
      else if atOrPastHi hi utc then (z.lookup (hi.getD 0)).1
      else offset
    u - offset2

/-- Go `Time.AddDate(0, 0, n)` for an instant in zone `z`: take the civil
date, add `n` days, rebuild with the same clock time via `time.Date`. -/
def addDays (z : Zone) (t : Int) (n : Int) : Int :=
  let wall := z.wallAt t
  let day := wall.fdiv 86400
  let tod := wall % 86400
  goDate z ((day + n) * 86400 + tod)

/-- The Unix-seconds value of Go's zero `time.Time`
(January 1, year 1, 00:00:00 UTC). -/
def goZeroTimeSec : Int := -62135596800

/- The external code-to-zone table `codes.IATA` and the runtime's
`time.LoadLocation` are collaborators outside the core sources; every
core function below is parametric in them. -/
variable (IATA : String → Option String) (loadLocation : String → Option Zone)

/-- `TimeResult` of package clock.  The Go `Time` field is embedded as the
pair (seconds, name of attached location); the zero `time.Time` carries
the UTC location.  The optional weather annotation is outside the core
treated here. -/
structure TimeResult where
  IATA : String
  TimeSec : Int
  TimeLoc : String
  Location : String
  Found : Bool
deriving DecidableEq, Repr

/-- `LookupTime` (clock package): uppercase the code, resolve it through
the external table, load the zone; on either failure return a
`Found = false` result carrying only the code (Go zero values elsewhere);
otherwise view the reference instant in the loaded zone.  The `now = nil`
wall-clock branch is not modelled: every claim fixes a reference
instant. -/
def LookupTime (iata : String) (now : Int) : TimeResult :=
  let up := goToUpper iata
  match IATA up with
  | none => ⟨up, goZeroTimeSec, "UTC", "", false⟩
  | some locName =>
      match loadLocation locName with
      | none => ⟨up, goZeroTimeSec, "UTC", "", false⟩
      | some _ => ⟨up, now, locName, locName, true⟩

/-- The string-formatting core of `RelativeOffset`, operating on the raw
second difference `targetOffset - localOffset`.  Go `/` and `%` on `int`
truncate toward zero, hence `Int.tdiv` / `Int.tmod`. -/
def relOffsetString (diffSeconds : Int) : String :=
  let diffMinutes := diffSeconds.tdiv 60
  let hours := diffMinutes.tdiv 60
  let minutes0 := diffMinutes.tmod 60
  let minutes := if minutes0 < 0 then -minutes0 else minutes0
  let sign := if hours < 0 ∨ (hours = 0 ∧ diffSeconds < 0) then "-" else "+"
  let hoursOut := if hours < 0 then -hours else hours
  if minutes = 0 then
    "(" ++ sign ++ toString hoursOut ++ "h)"
  else
    "(" ++ sign ++ toString hoursOut ++ "h" ++ toString minutes ++ "m)"

/-- `RelativeOffset` (clock package): offset of the target zone from the
invoking process's local zone at the same absolute instant.  The ambient
`time.Local` is passed explicitly, as the spec's design notes require. -/
def RelativeOffset (target localZone : Zone) (t : Int) : String :=
  relOffsetString (target.offsetAt t - localZone.offsetAt t)

/-- `DSTTransition` of internal/clock/dst.go. -/
structure DSTTransition where
  Date : Int
  DaysUntil : Int
  OffsetChange : String
  Description : String
deriving DecidableEq, Repr

/-- `formatOffsetChange` of dst.go. -/
def formatOffsetChange (diffSeconds : Int) : String :=
  if diffSeconds = 0 then "+0h"
  else
    let sign := if diffSeconds < 0 then "-" else "+"
    let d := if diffSeconds < 0 then -diffSeconds else diffSeconds
    let hours := d.tdiv 3600
    let minutes := (d.tmod 3600).tdiv 60
    if minutes = 0 then sign ++ toString hours ++ "h"
    else sign ++ toString hours ++ "h" ++ toString minutes ++ "m"

/-- `dstDescription` of dst.go. -/
def dstDescription (offsetDiff : Int) : String :=
  if offsetDiff > 0 then "DST starts" else "DST ends"

/-- The day-distance computation of `FindDSTTransition` on the second
difference `checkTime - t`.  The Go source computes with `float64` hours;
at second granularity and window-bounded magnitudes every truncation and
comparison there is exact, so the integer form below is equal to it:
`int(hours/24)` is `tdiv 86400` of the seconds and `int(hours)` is
`tdiv 3600`. -/
def goDaysUntil (secsDiff : Int) : Int :=
  if 0 < secsDiff then
    let d := secsDiff.tdiv 86400
    if (secsDiff.tdiv 3600).tmod 24 > 0 then d + 1 else d
  else
    let hoursAgo := -secsDiff
    let d := -(hoursAgo.tdiv 86400)
    if 0 < hoursAgo ∧ (hoursAgo.tdiv 3600).tmod 24 > 0 then d - 1 else d

/-- One hour-boundary probe of `FindDSTTransition`: construct the
candidate hour and the explicitly rebuilt previous local hour, compare
offsets, and build the transition record when they differ and the
day-distance fits the window.  `checkDay` is the running day instant
(carrying the reference's clock time) and `dayNum` its calendar day. -/
def scanHour (z : Zone) (t : Int) (windowDays : Nat) (checkDay dayNum : Int)
    (hour : Nat) : Option DSTTransition :=
  let checkTime := goDate z (dayNum * 86400 + (hour : Int) * 3600)
  let secsDiff := checkTime - t
  if secsDiff < -((windowDays : Int) * 86400) ∨ (windowDays : Int) * 86400 < secsDiff then
    none
  else
    let prevHour :=
      if hour = 0 then
        let prevDay := addDays z checkDay (-1)
        goDate z (z.dayAt prevDay * 86400 + 23 * 3600)
      else
        goDate z (dayNum * 86400 + ((hour : Int) - 1) * 3600)
    let prevOffset := z.offsetAt prevHour
    let checkOffset := z.offsetAt checkTime
    if prevOffset = checkOffset then none
    else
      let offsetDiff := checkOffset - prevOffset
      let daysUntil := goDaysUntil secsDiff
      if -(windowDays : Int) ≤ daysUntil ∧ daysUntil ≤ (windowDays : Int) then
        some ⟨checkTime, daysUntil, formatOffsetChange offsetDiff,
              dstDescription offsetDiff⟩
      else none

/-- The 24-hour inner loop of `FindDSTTransition` over one candidate day. -/
def scanDay (z : Zone) (t : Int) (windowDays : Nat) (checkDay : Int) :
    Option DSTTransition :=
  (List.range 24).findSome? (scanHour z t windowDays checkDay (z.dayAt checkDay))

/-- `FindDSTTransition` of dst.go: scan each day from `t - window` to
`t + window` and each local hour boundary for an offset change; report the
first hit.  The `loc == time.UTC` early return of the source is omitted:
for the UTC zone (constant offset, no transitions) the scan below finds
nothing and returns `none` as well, so the embedding is extensionally
identical. -/
def FindDSTTransition (z : Zone) (t : Int) (windowDays : Nat) :
    Option DSTTransition :=
  let startDay := addDays z t (-(windowDays : Int))
  (List.range (2 * windowDays + 1)).findSome?
    (fun day => scanDay z t windowDays (addDays z startDay (day : Int)))

/-- Is `c` an ASCII letter (what `(?i)[A-Z]` matches on the ASCII inputs
the program handles)? -/
def isAsciiLetter (c : Char) : Bool := ('A' ≤ c ∧ c ≤ 'Z') ∨ ('a' ≤ c ∧ c ≤ 'z')

/-- Is `c` an ASCII digit (`\d`)? -/
def isDigitChar (c : Char) : Bool := '0' ≤ c ∧ c ≤ '9'

/-- Numeric value of an ASCII digit. -/
def digitVal (c : Char) : Int := (c.toNat : Int) - 48

/-- Decimal value of a digit list (most significant first), the value
`fmt.Sscanf` with `%d` reads from those digits. -/
def digitsToInt (ds : List Char) : Int :=
  ds.foldl (fun acc c => acc * 10 + digitVal c) 0

/-- Anchor `$`: succeeds only on the empty remainder. -/
def matchEnd : List Char → Option Unit
  | [] => some ()
  | _ :: _ => none

/-- `(\d{2})?$` with the regex engine's greedy preference: first try to
take two digits and finish, otherwise take nothing and finish. -/
def matchMinOpt (cs : List Char) : Option (Option (Char × Char)) :=
  (match cs with
   | m1 :: m2 :: rest =>
       if isDigitChar m1 ∧ isDigitChar m2 then
         (matchEnd rest).map (fun _ => some (m1, m2))
       else none
   | _ => none).orElse
    (fun _ => (matchEnd cs).map (fun _ => none))

/-- `:?(\d{2})?$` greedily: consume a colon when present, backtracking to
the colon-less alternative on failure. -/
def matchColonOpt (cs : List Char) : Option (Option (Char × Char)) :=
  match cs with
  | c :: rest =>
      if c = ':' then (matchMinOpt rest).orElse (fun _ => matchMinOpt (c :: rest))
      else matchMinOpt (c :: rest)
  | [] => matchMinOpt []

/-- `(\d{1,2}):?(\d{2})?$` greedily: prefer the two-digit hour, backtrack
to one digit.  Returns the hour capture and the optional minute capture. -/
def matchHourTail (cs : List Char) : Option (List Char × Option (Char × Char)) :=
  match cs with
  | d1 :: d2 :: rest =>
      (if isDigitChar d1 ∧ isDigitChar d2 then
         (matchColonOpt rest).map (fun m => ([d1, d2], m))
       else none).orElse
        (fun _ =>
          if isDigitChar d1 then
            (matchColonOpt (d2 :: rest)).map (fun m => ([d1], m))
          else none)
  | [d1] =>
      if isDigitChar d1 then (matchColonOpt []).map (fun m => ([d1], m))
      else none
  | [] => none

/-- `timeSpecRegex.FindStringSubmatch`: the full anchored match of
`(?i)^([A-Z]{3})@(\d{1,2}):?(\d{2})?$` with its three captures. -/
def timeSpecMatch (s : String) :
    Option (List Char × List Char × Option (Char × Char)) :=
  match s.data with
  | c1 :: c2 :: c3 :: c4 :: rest =>
      if c4 = '@' ∧ isAsciiLetter c1 ∧ isAsciiLetter c2 ∧ isAsciiLetter c3 then
        (matchHourTail rest).map (fun hm => ([c1, c2, c3], hm.1, hm.2))
      else none
  | _ => none

/-- `TimeSpec` of the clock package. -/
structure TimeSpec where
  IATA : String
  Hour : Int
  Minute : Int
deriving DecidableEq, Repr

/-- The capture-processing block of `ParseTimeSpec`: uppercase the code,
read the hour and the optional minute with `Sscanf`, reject out-of-range
values. -/
def specFromCaptures (code hourDigits : List Char)
    (minPair : Option (Char × Char)) : Option TimeSpec :=
  let hour := digitsToInt hourDigits
  if hour < 0 ∨ hour > 23 then none
  else
    match minPair with
    | none => some ⟨goToUpper ⟨code⟩, hour, 0⟩
    | some (m1, m2) =>
        let minute := digitVal m1 * 10 + digitVal m2
        if minute < 0 ∨ minute > 59 then none
        else some ⟨goToUpper ⟨code⟩, hour, minute⟩

/-- `ParseTimeSpec`: regex match, then capture processing; `none` is the
"not a time spec" sentinel (Go `nil`). -/
def ParseTimeSpec (s : String) : Option TimeSpec :=
  match timeSpecMatch s with
  | none => none
  | some (code, hourDigits, minPair) => specFromCaptures code hourDigits minPair

/-- `TimeSpec.ResolveTime`: place the specified clock time on the
reference instant's calendar date as seen in the spec's zone, via
`time.Date`.  The Go load error wraps the runtime error text; the
embedding keeps the "loading location " prefix of the message. -/
def ResolveTime (ts : TimeSpec) (ref : Int) : Except String Int :=
  match IATA ts.IATA with
  | none => Except.error ("unknown IATA code: " ++ ts.IATA)
  | some locName =>
      match loadLocation locName with
      | none => Except.error ("loading location " ++ locName)
      | some z =>
          Except.ok (goDate z (z.dayAt ref * 86400 + ts.Hour * 3600 + ts.Minute * 60))

/-- `WorkHours` of the clock package. -/
structure WorkHours where
  Start : Int
  End : Int
deriving DecidableEq, Repr

/-- Is `c` one of the blanks Go's scanner skips before a `%d` verb? -/
def isBlankChar (c : Char) : Bool := c = ' ' ∨ c = '\t'

/-- Skip blanks, as `fmt`'s scanner does before reading a number. -/
def dropBlanks : List Char → List Char
  | c :: cs => if isBlankChar c then dropBlanks cs else c :: cs
  | [] => []

/-- Longest leading digit run and the remainder. -/
def takeDigits : List Char → List Char × List Char
  | c :: cs =>
      if isDigitChar c then
        let p := takeDigits cs
        (c :: p.1, p.2)
      else ([], c :: cs)
  | [] => ([], [])

/-- Read a digit run as an integer; fail on an empty run.  Go's `%d` into
`int` additionally errors on 64-bit overflow; an overflowing field is out
of the checked ranges either way, so both sides reject those strings. -/
def scanDigits (cs : List Char) : Option (Int × List Char) :=
  let p := takeDigits cs
  if p.1.isEmpty then none else some (digitsToInt p.1, p.2)

/-- The `%d` verb of `fmt.Sscanf`: skip blanks, optional sign, digits. -/
def scanInt (cs : List Char) : Option (Int × List Char) :=
  match dropBlanks cs with
  | c :: rest =>
      if c = '-' then (scanDigits rest).map (fun p => (-p.1, p.2))
      else if c = '+' then scanDigits rest
      else scanDigits (c :: rest)
  | [] => scanDigits []

/-- A literal (non-blank) format character: must match the next input
character exactly. -/
def scanLit (c : Char) : List Char → Option (List Char)
  | c2 :: rest => if c2 = c then some rest else none
  | [] => none

/-- `fmt.Sscanf(s, "%d:%d-%d:%d", ...)` succeeding with `n == 4`:
trailing input after the last verb is ignored, exactly as `Sscanf`
ignores it. -/
def sscanfHMHM (cs : List Char) : Option (Int × Int × Int × Int) := do
  let p1 ← scanInt cs
  let r1 ← scanLit ':' p1.2
  let p2 ← scanInt r1
  let r2 ← scanLit '-' p2.2
  let p3 ← scanInt r2
  let r3 ← scanLit ':' p3.2
  let p4 ← scanInt r3
  pure (p1.1, p2.1, p3.1, p4.1)

/-- `fmt.Sscanf(s, "%d-%d", ...)` succeeding with `n == 2`. -/
def sscanfHH (cs : List Char) : Option (Int × Int) := do
  let p1 ← scanInt cs
  let r1 ← scanLit '-' p1.2
  let p2 ← scanInt r1
  pure (p1.1, p2.1)

/-- `ParseWorkHours`: try `H:MM-H:MM` first, validating hours and minutes
but keeping only the hours; fall back to `H-H`; `none` is the invalid
sentinel (Go `nil`). -/
def ParseWorkHours (s : String) : Option WorkHours :=
  match sscanfHMHM s.data with
  | some (startH, startM, endH, endM) =>
      if startH < 0 ∨ startH > 23 ∨ endH < 0 ∨ endH > 24 then none
      else if startM < 0 ∨ startM > 59 ∨ endM < 0 ∨ endM > 59 then none
      else some ⟨startH, endH⟩
  | none =>
      match sscanfHH s.data with
      | some (startH, endH) =>
          if startH < 0 ∨ startH > 23 ∨ endH < 0 ∨ endH > 24 then none
          else some ⟨startH, endH⟩
      | none => none

/-- `LocationInfo` of the overlap engine.  The `Location *time.Location`
field is determined by `LocName` through `loadLocation` and is carried
only for re-projection in formatting, so the embedding keeps the name and
the snapshotted offset. -/
structure LocationInfo where
  IATA : String
  LocName : String
  Offset : Int
deriving DecidableEq, Repr

/-- `OverlapResult` of the overlap engine. -/
structure OverlapResult where
  Locations : List LocationInfo
  OverlapHoursUTC : List Int
  WorkHours : WorkHours
deriving DecidableEq, Repr

/-- The resolution loop of `FindOverlap`: uppercase each code, resolve it
and load its zone, snapshotting the UTC offset at the reference instant;
abort on the first failure. -/
def resolveLocations (refTime : Int) : List String → Except String (List LocationInfo)
  | [] => Except.ok []
  | iata :: rest =>
      let up := goToUpper iata
      match IATA up with
      | none => Except.error ("unknown IATA code: " ++ up)
      | some locName =>
          match loadLocation locName with
          | none => Except.error ("loading location " ++ locName)
          | some z =>
              (resolveLocations refTime rest).map
                (fun locs => ⟨up, locName, z.offsetAt refTime⟩ :: locs)

/-- Does UTC hour `utcHour` fall inside the work window for a location
with snapshotted offset `off`?  Local hour as in the source:
`(utcHour + offset/3600) % 24`, with Go truncating division and
remainder, then normalized into `[0, 24)`. -/
def workHourMatch (wh : WorkHours) (off utcHour : Int) : Bool :=
  let lh := (utcHour + off.tdiv 3600).tmod 24
  let localHour := if lh < 0 then lh + 24 else lh
  decide (wh.Start ≤ localHour ∧ localHour < wh.End)

/-- `FindOverlap`: require at least two locations, resolve them all, then
keep each of the 24 UTC hours that is inside every location's local work
window. -/
def FindOverlap (iatas : List String) (workHours : WorkHours) (refTime : Int) :
    Except String OverlapResult :=
  if iatas.length < 2 then
    Except.error "need at least 2 locations to find overlap"
  else
    match resolveLocations IATA loadLocation refTime iatas with
    | Except.error e => Except.error e
    | Except.ok locations =>
        let overlapHours := (List.range 24).filterMap (fun u : Nat =>
          if locations.all (fun l => workHourMatch workHours l.Offset (u : Int)) then
            some ((u : Int))
          else none)
        Except.ok ⟨locations, overlapHours, workHours⟩

/-- `hourRange` of the overlap engine; the exclusive-end field is named
`end` in the source, a reserved word here, rendered `stop`. -/
structure hourRange where
  start : Int
  stop : Int
deriving DecidableEq, Repr

/-- The grouping loop of `groupConsecutiveHours`: `start` is the start of
the open run, `prev` the last hour taken into it. -/
def groupGo (start prev : Int) : List Int → List hourRange
  | [] => [⟨start, prev + 1⟩]
  | h :: rest =>
      if h ≠ prev + 1 then ⟨start, prev + 1⟩ :: groupGo h h rest
      else groupGo start h rest

/-- `groupConsecutiveHours`: group an ascending hour list into maximal
consecutive runs as half-open ranges. -/
def groupConsecutiveHours : List Int → List hourRange
  | [] => []
  | h :: rest => groupGo h h rest

/-! Concrete fixture zones, transcribed from the IANA database for 2024
(instants in Unix seconds): America/Los_Angeles springs forward at
2024-03-10 10:00Z (-08:00 to -07:00) and falls back at 2024-11-03 09:00Z;
America/New_York at 2024-03-10 07:00Z and 2024-11-03 06:00Z;
Europe/London at 2024-03-31 01:00Z and 2024-10-27 01:00Z; Asia/Kolkata is
fixed at +05:30 and UTC at +00:00. -/

/-- UTC: fixed zero offset. -/
def zUTC : Zone := ⟨0, []⟩

/-- America/Los_Angeles across 2024. -/
def zLosAngeles : Zone := ⟨-28800, [(1710064800, -25200), (1730624400, -28800)]⟩

/-- America/New_York across 2024. -/
def zNewYork : Zone := ⟨-18000, [(1710054000, -14400), (1730613600, -18000)]⟩

/-- Europe/London across 2024. -/
def zLondon : Zone := ⟨0, [(1711846800, 3600), (1729990800, 0)]⟩

/-- Asia/Kolkata: fixed +05:30. -/
def zKolkata : Zone := ⟨19800, []⟩

/-- A fixture instance of the external code table: the codes exercised by
the repository's own tests, plus `BAD`, a code that resolves to a zone
name the loader cannot load. -/
def table0 : String → Option String := fun s =>
  if s = "SFO" then some "America/Los_Angeles"
  else if s = "JFK" then some "America/New_York"
  else if s = "LHR" then some "Europe/London"
  else if s = "BOM" then some "Asia/Kolkata"
  else if s = "UTC" then some "UTC"
  else if s = "BAD" then some "Nowhere/Invalid"
  else none

/-- A fixture loader for the zone names `table0` produces;
`Nowhere/Invalid` fails to load. -/
def load0 : String → Option Zone := fun s =>
  if s = "America/Los_Angeles" then some zLosAngeles
  else if s = "America/New_York" then some zNewYork
  else if s = "Europe/London" then some zLondon
  else if s = "Asia/Kolkata" then some zKolkata
  else if s = "UTC" then some zUTC
  else none

/-! ### Claim C3: groupConsecutiveHours yields exactly the maximal runs -/

/-- The ascending list `[s, s+1, ..., s+n-1]`. -/
def intRange (s : Int) : Nat → List Int
  | 0 => []
  | n + 1 => intRange s n ++ [s + (n : Int)]

/-- The list of hours a half-open range stands for. -/
def hourRange.toList (r : hourRange) : List Int :=
  intRange r.start (r.stop - r.start).toNat

theorem intRange_mem (s : Int) (n : Nat) (x : Int) :
    x ∈ intRange s n ↔ s ≤ x ∧ x < s + (n : Int) := by
  induction n with
  | zero => simp [intRange]
  | succ k ih => simp [intRange, ih]; omega

theorem hourRange_toList_singleton (h : Int) :
    hourRange.toList ⟨h, h + 1⟩ = [h] := by
  have h1 : ((h + 1 : Int) - h).toNat = 1 := by omega
  simp [hourRange.toList, h1, intRange]

theorem hourRange_toList_snoc (s e : Int) (h : s ≤ e) :
    hourRange.toList ⟨s, e + 1⟩ = hourRange.toList ⟨s, e⟩ ++ [e] := by
  have h1 : ((e + 1 : Int) - s).toNat = (e - s).toNat + 1 := by omega
  have h2 : ((e - s).toNat : Int) = e - s := Int.toNat_of_nonneg (by omega)
  simp only [hourRange.toList, h1, intRange, h2]
  norm_num

theorem groupGo_head (l : List Int) :
    ∀ start prev : Int, ∃ e rest, groupGo start prev l = ⟨start, e⟩ :: rest := by
  induction l with
  | nil => exact fun s p => ⟨p + 1, [], rfl⟩
  | cons h rest ih =>
      intro s p
      by_cases hc : h ≠ p + 1
      · exact ⟨p + 1, groupGo h h rest, by simp [groupGo, hc]⟩
      · obtain ⟨e, r2, hr⟩ := ih s h
        exact ⟨e, r2, by simp only [groupGo, if_neg hc]; exact hr⟩

theorem groupGo_flatten (l : List Int) :
    ∀ start prev : Int, start ≤ prev → List.Chain' (· < ·) (prev :: l) →
      ((groupGo start prev l).map hourRange.toList).flatten =
        hourRange.toList ⟨start, prev + 1⟩ ++ l := by
  induction l with
  | nil => intro s p hle _; simp [groupGo]
  | cons h rest ih =>
      intro s p hle hch
      rw [List.chain'_cons] at hch
      obtain ⟨hph, hch'⟩ := hch
      by_cases hc : h ≠ p + 1
      · have hrec := ih h h le_rfl hch'
        simp only [groupGo, if_pos hc, List.map_cons, List.flatten_cons]
        rw [hrec, hourRange_toList_singleton]
        simp
      · push_neg at hc
        subst hc
        have hrec := ih s (p + 1) (by omega) hch'
        simp only [groupGo, if_neg (by simp : ¬(p + 1 ≠ p + 1))]
        rw [hrec, hourRange_toList_snoc s (p + 1) (by omega)]
        simp

theorem groupGo_pos (l : List Int) :
    ∀ start prev : Int, start ≤ prev → List.Chain' (· < ·) (prev :: l) →
      ∀ r ∈ groupGo start prev l, r.start < r.stop := by
  induction l with
  | nil =>
      intro s p hle _ r hr
      simp [groupGo] at hr
      subst hr; simp; omega
  | cons h rest ih =>
      intro s p hle hch r hr
      rw [List.chain'_cons] at hch
      obtain ⟨hph, hch'⟩ := hch
      by_cases hc : h ≠ p + 1
      · simp only [groupGo, if_pos hc, List.mem_cons] at hr
        rcases hr with hr | hr
        · subst hr; simp; omega
        · exact ih h h le_rfl hch' r hr
      · push_neg at hc
        subst hc
        simp only [groupGo, if_neg (by simp : ¬(p + 1 ≠ p + 1))] at hr
        exact ih s (p + 1) (by omega) hch' r hr

theorem groupGo_chain (l : List Int) :
    ∀ start prev : Int, List.Chain' (· < ·) (prev :: l) →
      List.Chain' (fun r1 r2 => r1.stop < r2.start) (groupGo start prev l) := by
  induction l with
  | nil => intro s p _; exact List.chain'_singleton _
  | cons h rest ih =>
      intro s p hch
      rw [List.chain'_cons] at hch
      obtain ⟨hph, hch'⟩ := hch
      by_cases hc : h ≠ p + 1
      · simp only [groupGo, if_pos hc]
        rw [List.chain'_cons']
        constructor
        · intro y hy
          obtain ⟨e, r2, hr⟩ := groupGo_head rest h h
          rw [hr] at hy
          simp at hy
          subst hy
          simp
          omega
        · exact ih h h hch'
      · push_neg at hc
        subst hc
        simp only [groupGo, if_neg (by simp : ¬(p + 1 ≠ p + 1))]
        exact ih s (p + 1) hch'

/-- Claim C3: for every ascending list of hours, `groupConsecutiveHours`
returns exactly the maximal runs of consecutive integers as half-open
ranges — the ranges concatenate back to the input, every range is
nonempty, and adjacent output ranges are separated by a gap (so no two
could be merged); a run ending at 23 and one starting at 0 stay separate
(fourth example).  The spec's three examples are included. -/
theorem c3_groupConsecutiveHours (hours : List Int)
    (hasc : List.Chain' (· < ·) hours) :
    (((groupConsecutiveHours hours).map hourRange.toList).flatten = hours
      ∧ (∀ r ∈ groupConsecutiveHours hours, r.start < r.stop)
      ∧ List.Chain' (fun r1 r2 => r1.stop < r2.start) (groupConsecutiveHours hours))
    ∧ groupConsecutiveHours [9, 10, 11, 12] = [⟨9, 13⟩]
    ∧ groupConsecutiveHours [9, 10, 14, 15, 16] = [⟨9, 11⟩, ⟨14, 17⟩]
    ∧ groupConsecutiveHours [] = []
    ∧ groupConsecutiveHours [0, 1, 22, 23] = [⟨0, 2⟩, ⟨22, 24⟩] := by
  refine ⟨?_, by decide, by decide, rfl, by decide⟩
  cases hours with
  | nil => simp [groupConsecutiveHours]
  | cons h rest =>
      unfold groupConsecutiveHours
      refine ⟨?_, groupGo_pos rest h h le_rfl hasc, groupGo_chain rest h h hasc⟩
      rw [groupGo_flatten rest h h le_rfl hasc, hourRange_toList_singleton]
      simp

/-- Witness for C3 at the ascending list `[9, 10, 14, 15, 16]`. -/
theorem c3_witness :
    (((groupConsecutiveHours [9, 10, 14, 15, 16]).map hourRange.toList).flatten =
        [9, 10, 14, 15, 16]
      ∧ (∀ r ∈ groupConsecutiveHours [9, 10, 14, 15, 16], r.start < r.stop)
      ∧ List.Chain' (fun r1 r2 => r1.stop < r2.start)
          (groupConsecutiveHours [9, 10, 14, 15, 16]))
    ∧ groupConsecutiveHours [9, 10, 11, 12] = [⟨9, 13⟩]
    ∧ groupConsecutiveHours [9, 10, 14, 15, 16] = [⟨9, 11⟩, ⟨14, 17⟩]
    ∧ groupConsecutiveHours [] = []
    ∧ groupConsecutiveHours [0, 1, 22, 23] = [⟨0, 2⟩, ⟨22, 24⟩] :=
  c3_groupConsecutiveHours [9, 10, 14, 15, 16]
    (by simp [List.chain'_cons])


/-! ### Claim C7: RelativeOffset formatting -/

theorem toString_intOfNat (n : Nat) : toString ((n : Int)) = toString n := rfl

theorem neg_tmod_left (a b : Int) : (-a).tmod b = -(a.tmod b) := by
  rw [Int.tmod_def, Int.tmod_def, Int.neg_tdiv]; ring

/-- The output of `relOffsetString` in closed form: sign `-` exactly when
the raw difference is negative (also when the hour component is zero), an
always nonnegative hour count `|d| / 3600`, and a nonnegative minute count
`|d| / 60 % 60` rendered exactly when nonzero. -/
theorem relOffsetString_eq (d : Int) :
    relOffsetString d =
      "(" ++ (if d < 0 then "-" else "+") ++ toString (d.natAbs / 3600) ++ "h" ++
        (if d.natAbs / 60 % 60 = 0 then ")" else toString (d.natAbs / 60 % 60) ++ "m)") := by
  rcases Int.le_or_lt 0 d with hd | hd
  · obtain ⟨n, rfl⟩ := Int.eq_ofNat_of_zero_le hd
    simp only [relOffsetString]
    rw [show ((n : Int)).tdiv 60 = ((n / 60 : Nat) : Int) from rfl]
    rw [show (((n / 60 : Nat) : Int)).tdiv 60 = ((n / 60 / 60 : Nat) : Int) from rfl]
    rw [show (((n / 60 : Nat) : Int)).tmod 60 = ((n / 60 % 60 : Nat) : Int) from rfl]
    rw [Nat.div_div_eq_div_mul, (by norm_num : (60 * 60 : Nat) = 3600)]
    rw [if_neg (by omega : ¬((n / 60 % 60 : Nat) : Int) < 0)]
    rw [if_neg (by omega :
      ¬(((n / 3600 : Nat) : Int) < 0 ∨ ((n / 3600 : Nat) : Int) = 0 ∧ (n : Int) < 0))]
    rw [if_neg (by omega : ¬((n / 3600 : Nat) : Int) < 0)]
    rw [if_neg (by omega : ¬(n : Int) < 0)]
    rw [Int.natAbs_ofNat]
    by_cases hmz : n / 60 % 60 = 0
    · rw [if_pos (by omega : ((n / 60 % 60 : Nat) : Int) = 0), if_pos hmz]
      rw [toString_intOfNat]
      apply String.ext
      simp [String.data_append]
    · rw [if_neg (by omega : ¬((n / 60 % 60 : Nat) : Int) = 0), if_neg hmz]
      rw [toString_intOfNat, toString_intOfNat]
      apply String.ext
      simp [String.data_append]
  · obtain ⟨n, hn⟩ : ∃ n : Nat, d = -(n : Int) := ⟨(-d).toNat, by omega⟩
    subst hn
    have hpos : 0 < n := by omega
    have habs : (-(n : Int)).natAbs = n := by simp
    simp only [relOffsetString]
    rw [Int.neg_tdiv, show ((n : Int)).tdiv 60 = ((n / 60 : Nat) : Int) from rfl]
    rw [Int.neg_tdiv, show (((n / 60 : Nat) : Int)).tdiv 60 = ((n / 60 / 60 : Nat) : Int) from rfl]
    rw [neg_tmod_left, show (((n / 60 : Nat) : Int)).tmod 60 = ((n / 60 % 60 : Nat) : Int) from rfl]
    rw [Nat.div_div_eq_div_mul, (by norm_num : (60 * 60 : Nat) = 3600)]
    rw [habs]
    rw [if_pos (by
      by_cases h0 : n / 3600 = 0
      · right; omega
      · left; omega :
        -((n / 3600 : Nat) : Int) < 0 ∨ -((n / 3600 : Nat) : Int) = 0 ∧ -(n : Int) < 0)]
    rw [if_pos (by omega : -(n : Int) < 0)]
    have hmins : (if -((n / 60 % 60 : Nat) : Int) < 0 then -(-((n / 60 % 60 : Nat) : Int))
        else -((n / 60 % 60 : Nat) : Int)) = ((n / 60 % 60 : Nat) : Int) := by
      by_cases hmz : n / 60 % 60 = 0
      · rw [if_neg (by omega)]; omega
      · rw [if_pos (by omega)]; omega
    rw [hmins]
    have hhout : (if -((n / 3600 : Nat) : Int) < 0 then -(-((n / 3600 : Nat) : Int))
        else -((n / 3600 : Nat) : Int)) = ((n / 3600 : Nat) : Int) := by
      by_cases h0 : n / 3600 = 0
      · rw [if_neg (by omega)]; omega
      · rw [if_pos (by omega)]; omega
    rw [hhout]
    by_cases hmz : n / 60 % 60 = 0
    · rw [if_pos (by omega : ((n / 60 % 60 : Nat) : Int) = 0), if_pos hmz]
      rw [toString_intOfNat]
      apply String.ext
      simp [String.data_append]
    · rw [if_neg (by omega : ¬((n / 60 % 60 : Nat) : Int) = 0), if_neg hmz]
      rw [toString_intOfNat, toString_intOfNat]
      apply String.ext
      simp [String.data_append]

/-- Claim C7: for every instant and every pair of zones, `RelativeOffset`
renders the target-minus-local difference with the sign always shown
(negative exactly when the raw second difference is negative, including
when the hour component is zero), a nonnegative hour count, and a
nonnegative minute count that is omitted exactly when zero; the closed
conjuncts exercise the +5:30 zone (Asia/Kolkata versus UTC both ways) and
the sub-hour negative cases. -/
theorem c7_RelativeOffset (target localZone : Zone) (t : Int) :
    (RelativeOffset target localZone t =
      "(" ++ (if target.offsetAt t - localZone.offsetAt t < 0 then "-" else "+") ++
        toString ((target.offsetAt t - localZone.offsetAt t).natAbs / 3600) ++ "h" ++
        (if (target.offsetAt t - localZone.offsetAt t).natAbs / 60 % 60 = 0 then ")"
         else toString ((target.offsetAt t - localZone.offsetAt t).natAbs / 60 % 60) ++ "m)"))
    ∧ RelativeOffset zKolkata zUTC 1705320000 = "(+5h30m)"
    ∧ RelativeOffset zUTC zKolkata 1705320000 = "(-5h30m)"
    ∧ relOffsetString (-1800) = "(-0h30m)"
    ∧ relOffsetString (-59) = "(-0h)" :=
  ⟨relOffsetString_eq _, by decide, by decide, by decide, by decide⟩



/-! ### Claims C1 and C2: the overlap engine -/

/-- Does code `c` resolve through the table and load? -/
def resolvesB (c : String) : Bool :=
  match IATA (goToUpper c) with
  | none => false
  | some n => (loadLocation n).isSome

/-- The `LocationInfo` the resolution loop builds for a resolvable code
(arbitrary values when the code does not resolve — only used under a
`resolvesB` hypothesis). -/
def locInfoOf (refTime : Int) (c : String) : LocationInfo :=
  match IATA (goToUpper c) with
  | none => ⟨goToUpper c, "", 0⟩
  | some n =>
      match loadLocation n with
      | none => ⟨goToUpper c, n, 0⟩
      | some z => ⟨goToUpper c, n, z.offsetAt refTime⟩

/-- Modelled from the claim's words: the local hour computed as
`(h + offsetSeconds/3600) mod 24` (Go truncating arithmetic), normalized
into `[0, 24)`. -/
def specLocalHour (off h : Int) : Int :=
  let x := (h + off.tdiv 3600).tmod 24
  if x < 0 then x + 24 else x

/-- Modelled from the claim's words: the normalized local hour lies in
`[workHours.Start, workHours.End)`. -/
def specInWindow (wh : WorkHours) (off h : Int) : Prop :=
  wh.Start ≤ specLocalHour off h ∧ specLocalHour off h < wh.End

theorem workHourMatch_iff (wh : WorkHours) (off h : Int) :
    workHourMatch wh off h = true ↔ specInWindow wh off h := by
  unfold workHourMatch specInWindow specLocalHour
  simp [decide_eq_true_iff]

theorem resolveLocations_eq (refTime : Int) (iatas : List String)
    (h : ∀ c ∈ iatas, resolvesB IATA loadLocation c = true) :
    resolveLocations IATA loadLocation refTime iatas =
      Except.ok (iatas.map (locInfoOf IATA loadLocation refTime)) := by
  induction iatas with
  | nil => rfl
  | cons c rest ih =>
      have hc := h c (by simp)
      have hrest := ih (fun x hx => h x (by simp [hx]))
      unfold resolvesB at hc
      simp only [resolveLocations, List.map_cons]
      cases hI : IATA (goToUpper c) with
      | none => simp [hI] at hc
      | some n =>
          simp only [hI] at hc
          cases hL : loadLocation n with
          | none => simp [hL] at hc
          | some z =>
              have hli : locInfoOf IATA loadLocation refTime c =
                  ⟨goToUpper c, n, z.offsetAt refTime⟩ := by
                simp [locInfoOf, hI, hL]
              simp only [hL, hrest, hli]
              rfl

/-- Claim C1: with at least two resolvable codes, `FindOverlap` succeeds
and its `OverlapHoursUTC` contains a UTC hour `h` in `[0, 24)` exactly
when, for every listed location, the normalized local hour
`(h + offset/3600) mod 24` (offset snapshotted at the reference instant)
lies inside the work window. -/
theorem c1_FindOverlap_hours (iatas : List String) (wh : WorkHours) (refTime : Int)
    (hlen : 2 ≤ iatas.length)
    (hres : ∀ c ∈ iatas, resolvesB IATA loadLocation c = true) :
    ∃ res, FindOverlap IATA loadLocation iatas wh refTime = Except.ok res ∧
      ∀ h : Int, 0 ≤ h → h < 24 →
        (h ∈ res.OverlapHoursUTC ↔
          ∀ c ∈ iatas,
            specInWindow wh (locInfoOf IATA loadLocation refTime c).Offset h) := by
  unfold FindOverlap
  rw [if_neg (by omega : ¬iatas.length < 2)]
  rw [resolveLocations_eq IATA loadLocation refTime iatas hres]
  refine ⟨_, rfl, ?_⟩
  intro h h0 h24
  rw [List.mem_filterMap]
  constructor
  · rintro ⟨u, hu, hif⟩
    by_cases hall :
        (iatas.map (locInfoOf IATA loadLocation refTime)).all
          (fun l => workHourMatch wh l.Offset (u : Int)) = true
    · rw [if_pos hall] at hif
      injection hif with he
      intro c hcmem
      rw [← workHourMatch_iff, ← he]
      rw [List.all_eq_true] at hall
      exact hall _ (List.mem_map_of_mem _ hcmem)
    · rw [if_neg hall] at hif
      cases hif
  · intro hwin
    have hcast : ((h.toNat : Nat) : Int) = h := by omega
    have hall : (iatas.map (locInfoOf IATA loadLocation refTime)).all
        (fun l => workHourMatch wh l.Offset ((h.toNat : Nat) : Int)) = true := by
      rw [List.all_eq_true]
      intro l hl
      obtain ⟨c, hcmem, rfl⟩ := List.mem_map.mp hl
      rw [workHourMatch_iff, hcast]
      exact hwin c hcmem
    have hmem : h.toNat ∈ List.range 24 := List.mem_range.mpr (by omega)
    exact ⟨h.toNat, hmem, by rw [if_pos hall, hcast]⟩

/-- Witness for C1: SFO and JFK over a 9-17 window at the winter
reference instant 2024-01-15 12:00Z. -/
theorem c1_witness :
    ∃ res, FindOverlap table0 load0 ["SFO", "JFK"] ⟨9, 17⟩ 1705320000 =
        Except.ok res ∧
      ∀ h : Int, 0 ≤ h → h < 24 →
        (h ∈ res.OverlapHoursUTC ↔
          ∀ c ∈ ["SFO", "JFK"],
            specInWindow ⟨9, 17⟩ (locInfoOf table0 load0 1705320000 c).Offset h) :=
  c1_FindOverlap_hours table0 load0 ["SFO", "JFK"] ⟨9, 17⟩ 1705320000
    (by decide) (by decide)

theorem resolveLocations_error (refTime : Int) (iatas : List String)
    (h : ∃ c ∈ iatas, resolvesB IATA loadLocation c = false) :
    ∃ msg, resolveLocations IATA loadLocation refTime iatas = Except.error msg ∧
      ((∃ c ∈ iatas, msg = "unknown IATA code: " ++ goToUpper c) ∨
        ∃ n, msg = "loading location " ++ n) := by
  induction iatas with
  | nil => simp at h
  | cons c rest ih =>
      cases hI : IATA (goToUpper c) with
      | none =>
          exact ⟨"unknown IATA code: " ++ goToUpper c,
            by simp [resolveLocations, hI], Or.inl ⟨c, by simp, rfl⟩⟩
      | some n =>
          cases hL : loadLocation n with
          | none =>
              exact ⟨"loading location " ++ n,
                by simp [resolveLocations, hI, hL], Or.inr ⟨n, rfl⟩⟩
          | some z =>
              have hrest : ∃ x ∈ rest, resolvesB IATA loadLocation x = false := by
                obtain ⟨x, hx, hxf⟩ := h
                rcases List.mem_cons.mp hx with rfl | hx2
                · exfalso
                  unfold resolvesB at hxf
                  simp [hI, hL] at hxf
                · exact ⟨x, hx2, hxf⟩
              obtain ⟨msg, hmsg, hshape⟩ := ih hrest
              refine ⟨msg, by simp [resolveLocations, hI, hL, hmsg, Except.map], ?_⟩
              rcases hshape with ⟨x, hx, hs⟩ | hs
              · exact Or.inl ⟨x, by simp [hx], hs⟩
              · exact Or.inr hs

/-- Claim C2: `FindOverlap` rejects fewer than two locations with the
"need at least 2 locations" error; with at least two locations of which
some code fails to resolve or load, it fails with the unknown-IATA (or
loading) error of the first failing code.  Failure is the `Except.error`
constructor, which carries no result — the Go source returns `nil` for
the result in every error branch. -/
theorem c2_FindOverlap_failures (iatas : List String) (wh : WorkHours) (refTime : Int) :
    (iatas.length < 2 →
      FindOverlap IATA loadLocation iatas wh refTime =
        Except.error "need at least 2 locations to find overlap")
    ∧ (2 ≤ iatas.length →
        (∃ c ∈ iatas, resolvesB IATA loadLocation c = false) →
        ∃ msg, FindOverlap IATA loadLocation iatas wh refTime = Except.error msg ∧
          ((∃ c ∈ iatas, msg = "unknown IATA code: " ++ goToUpper c) ∨
            ∃ n, msg = "loading location " ++ n)) := by
  constructor
  · intro hlen
    unfold FindOverlap
    rw [if_pos hlen]
  · intro hlen hbad
    obtain ⟨msg, hmsg, hshape⟩ := resolveLocations_error IATA loadLocation refTime iatas hbad
    unfold FindOverlap
    rw [if_neg (by omega : ¬iatas.length < 2), hmsg]
    exact ⟨msg, rfl, hshape⟩

/-- Witness for C2: a single location is rejected outright, and a pair
containing the unknown code XXX fails with its unknown-IATA error. -/
theorem c2_witness :
    FindOverlap table0 load0 ["SFO"] ⟨9, 17⟩ 1705320000 =
        Except.error "need at least 2 locations to find overlap"
    ∧ ∃ msg, FindOverlap table0 load0 ["SFO", "XXX"] ⟨9, 17⟩ 1705320000 =
        Except.error msg ∧
      ((∃ c ∈ ["SFO", "XXX"], msg = "unknown IATA code: " ++ goToUpper c) ∨
        ∃ n, msg = "loading location " ++ n) :=
  ⟨(c2_FindOverlap_failures table0 load0 ["SFO"] ⟨9, 17⟩ 1705320000).1 (by decide),
   (c2_FindOverlap_failures table0 load0 ["SFO", "XXX"] ⟨9, 17⟩ 1705320000).2
     (by decide) (by decide)⟩



/-! ### Claims C10 and C8: LookupTime -/

/-- Claim C10: the result of `LookupTime` always carries the uppercased
input as its `IATA` field, and a not-found result carries the zero
instant and an empty `Location`. -/
theorem c10_LookupTime_invariants (iata : String) (now : Int) :
    (LookupTime IATA loadLocation iata now).IATA = goToUpper iata
    ∧ ((LookupTime IATA loadLocation iata now).Found = false →
        (LookupTime IATA loadLocation iata now).TimeSec = goZeroTimeSec
        ∧ (LookupTime IATA loadLocation iata now).Location = "") := by
  simp only [LookupTime]
  cases hI : IATA (goToUpper iata) with
  | none => simp
  | some n =>
      cases hL : loadLocation n with
      | none => simp [hL]
      | some z => simp [hL]

/-- Witness for C10 at the unknown code `xxX`. -/
theorem c10_witness :
    (LookupTime table0 load0 "xxX" 1705320000).IATA = "XXX"
    ∧ (LookupTime table0 load0 "xxX" 1705320000).TimeSec = goZeroTimeSec
    ∧ (LookupTime table0 load0 "xxX" 1705320000).Location = "" :=
  ⟨by rw [(c10_LookupTime_invariants table0 load0 "xxX" 1705320000).1]; decide,
   (c10_LookupTime_invariants table0 load0 "xxX" 1705320000).2 (by decide)⟩

/-- Amended claim C8: `Found = false` exactly when the code misses the
table or its zone fails to load (no error is raised in either case: the
Go function has no error result at all), both failure kinds produce the
identical record (indistinguishable); a resolvable code yields
`Found = true` with the result instant equal to the reference viewed in
the resolved zone — a non-zero instant whenever the reference instant
itself is non-zero (the original claim's unconditional "non-zero" fails
at the zero reference, see the counterexample). -/
theorem c8_LookupTime (iata : String) (now : Int) :
    ((LookupTime IATA loadLocation iata now).Found = false ↔
      (IATA (goToUpper iata) = none ∨
        ∃ n, IATA (goToUpper iata) = some n ∧ loadLocation n = none))
    ∧ ((LookupTime IATA loadLocation iata now).Found = false →
        LookupTime IATA loadLocation iata now =
          ⟨goToUpper iata, goZeroTimeSec, "UTC", "", false⟩)
    ∧ (∀ n z, IATA (goToUpper iata) = some n → loadLocation n = some z →
        LookupTime IATA loadLocation iata now =
          ⟨goToUpper iata, now, n, n, true⟩
        ∧ (now ≠ goZeroTimeSec →
            (LookupTime IATA loadLocation iata now).TimeSec ≠ goZeroTimeSec)) := by
  simp only [LookupTime]
  cases hI : IATA (goToUpper iata) with
  | none => simp [hI]
  | some n =>
      cases hL : loadLocation n with
      | none =>
          simp [hI, hL]
          rintro m z rfl hz
          rw [hL] at hz
          cases hz
      | some z =>
          simp [hI, hL]
          exact fun m zz hm _ => hm

/-- Counterexample to C8 as stated: with the zero `time.Time` as the
fixed reference instant, a code present in the table still reports
`Found = true` but the returned instant is the zero instant, not a
non-zero one. -/
theorem c8_counterexample :
    (LookupTime table0 load0 "SFO" goZeroTimeSec).Found = true
    ∧ (LookupTime table0 load0 "SFO" goZeroTimeSec).TimeSec = goZeroTimeSec := by
  decide

/-- Witness for C8: the code `BAD` resolves in the table but its zone
fails to load, and the result equals the not-found record. -/
theorem c8_witness :
    LookupTime table0 load0 "BAD" 1705320000 =
      ⟨"BAD", goZeroTimeSec, "UTC", "", false⟩ :=
  (c8_LookupTime table0 load0 "BAD" 1705320000).2.1 (by decide)

/-! ### Claim C6: ResolveTime round trip -/

/-- Optional lower bound `lo` is at or below `x` (`none` = -∞). -/
def loLE : Option Int → Int → Prop
  | some s, x => s ≤ x
  | none, _ => True

/-- Optional upper bound `hi` is strictly above `x` (`none` = +∞). -/
def hiGT : Option Int → Int → Prop
  | some e, x => x < e
  | none, _ => True

/-- The instant queried lies inside the window `lookupAux` returns. -/
theorem lookupAux_mem (trs : List (Int × Int)) :
    ∀ (b : Int) (lo : Option Int) (u : Int), loLE lo u →
      loLE (lookupAux b lo trs u).2.1 u ∧ hiGT (lookupAux b lo trs u).2.2 u := by
  induction trs with
  | nil => intro b lo u h; exact ⟨h, trivial⟩
  | cons p rest ih =>
      intro b lo u h
      obtain ⟨t1, o1⟩ := p
      simp only [lookupAux]
      by_cases hu : u < t1
      · rw [if_pos hu]
        exact ⟨h, hu⟩
      · rw [if_neg hu]
        exact ih o1 (some t1) u (show t1 ≤ u by omega)

/-- When `lookupAux` starts from a concrete lower bound lying below all
transition instants of a sorted list, the window start it returns is at
or above that bound. -/
theorem lookupAux_lo_ge (trs : List (Int × Int)) :
    ∀ (b s u : Int),
      List.Pairwise (fun a b : Int × Int => a.1 < b.1) trs →
      (∀ p ∈ trs, s ≤ p.1) →
      ∃ s2, (lookupAux b (some s) trs u).2.1 = some s2 ∧ s ≤ s2 := by
  induction trs with
  | nil => intro b s u _ _; exact ⟨s, rfl, le_refl s⟩
  | cons p rest ih =>
      intro b s u hsort hall
      obtain ⟨t1, o1⟩ := p
      rw [List.pairwise_cons] at hsort
      simp only [lookupAux]
      by_cases hu : u < t1
      · rw [if_pos hu]; exact ⟨s, rfl, le_refl s⟩
      · rw [if_neg hu]
        obtain ⟨s2, hs2, hle⟩ := ih o1 t1 u hsort.2 (fun q hq => le_of_lt (hsort.1 q hq))
        exact ⟨s2, hs2, le_trans (hall (t1, o1) (List.mem_cons_self _ _)) hle⟩

/-- `lookupAux` is constant on the window it returns: any point inside
the window found for `u` looks up to the very same triple. -/
theorem lookupAux_const (trs : List (Int × Int)) :
    ∀ (b : Int) (lo : Option Int) (u x : Int),
      List.Pairwise (fun a b : Int × Int => a.1 < b.1) trs →
      loLE (lookupAux b lo trs u).2.1 x →
      hiGT (lookupAux b lo trs u).2.2 x →
      lookupAux b lo trs x = lookupAux b lo trs u := by
  induction trs with
  | nil => intro b lo u x _ _ _; rfl
  | cons p rest ih =>
      intro b lo u x hsort hlo hhi
      obtain ⟨t1, o1⟩ := p
      rw [List.pairwise_cons] at hsort
      simp only [lookupAux] at hlo hhi ⊢
      by_cases hu : u < t1
      · rw [if_pos hu] at hlo hhi
        have hx : x < t1 := hhi
        rw [if_pos hu, if_pos hx]
      · rw [if_neg hu] at hlo hhi
        obtain ⟨s2, hs2, hles⟩ :=
          lookupAux_lo_ge rest o1 t1 u hsort.2 (fun q hq => le_of_lt (hsort.1 q hq))
        rw [hs2] at hlo
        have hsx : s2 ≤ x := hlo
        have hx : ¬x < t1 := by omega
        rw [if_neg hu, if_neg hx]
        exact ih o1 (some t1) u x hsort.2 (by rw [hs2]; exact hsx) hhi

/-- Looking up below every transition instant returns the base offset,
the bound passed in, and the first instant as the window end. -/
theorem lookupAux_before (trs : List (Int × Int)) (b : Int) (lo : Option Int) (x : Int)
    (h : ∀ p ∈ trs, x < p.1) :
    lookupAux b lo trs x = (b, lo, trs.head?.map Prod.fst) := by
  cases trs with
  | nil => rfl
  | cons p rest =>
      obtain ⟨t1, o1⟩ := p
      simp only [lookupAux]
      rw [if_pos (h (t1, o1) (List.mem_cons_self _ _))]
      rfl

/-- A concrete window start returned by `lookupAux` is either the bound
passed in or one of the transition instants. -/
theorem lookupAux_lo_src (trs : List (Int × Int)) :
    ∀ (b : Int) (lo : Option Int) (u s : Int),
      (lookupAux b lo trs u).2.1 = some s →
      lo = some s ∨ ∃ os, (s, os) ∈ trs := by
  induction trs with
  | nil => intro b lo u s h; exact Or.inl h
  | cons p rest ih =>
      intro b lo u s h
      obtain ⟨t1, o1⟩ := p
      simp only [lookupAux] at h
      by_cases hu : u < t1
      · rw [if_pos hu] at h
        exact Or.inl h
      · rw [if_neg hu] at h
        rcases ih o1 (some t1) u s h with h1 | h2
        · have he : t1 = s := by injection h1
          subst he
          exact Or.inr ⟨o1, List.mem_cons_self _ _⟩
        · obtain ⟨os, hos⟩ := h2
          exact Or.inr ⟨os, List.mem_cons_of_mem _ hos⟩

/-- For a sorted transition list, a finite window end returned by
`lookupAux` is the least transition instant strictly above the query,
and an infinite window end means no transition lies strictly above. -/
theorem lookupAux_hi_src (trs : List (Int × Int)) :
    ∀ (b : Int) (lo : Option Int) (x : Int),
      List.Pairwise (fun a b : Int × Int => a.1 < b.1) trs →
      (∀ e, (lookupAux b lo trs x).2.2 = some e →
          (∃ oe, (e, oe) ∈ trs) ∧ x < e ∧ ∀ p ∈ trs, x < p.1 → e ≤ p.1)
        ∧ ((lookupAux b lo trs x).2.2 = none → ∀ p ∈ trs, p.1 ≤ x) := by
  induction trs with
  | nil =>
      intro b lo x _
      refine ⟨fun e he => ?_, fun _ p hp => absurd hp (List.not_mem_nil p)⟩
      simp [lookupAux] at he
  | cons p rest ih =>
      intro b lo x hsort
      obtain ⟨t1, o1⟩ := p
      rw [List.pairwise_cons] at hsort
      simp only [lookupAux]
      by_cases hx : x < t1
      · rw [if_pos hx]
        constructor
        · intro e he
          have het : t1 = e := by injection he
          subst het
          refine ⟨⟨o1, List.mem_cons_self _ _⟩, hx, ?_⟩
          intro q hq hxq
          rcases List.mem_cons.mp hq with rfl | hq2
          · exact le_refl _
          · exact le_of_lt (hsort.1 q hq2)
        · intro he
          simp at he
      · rw [if_neg hx]
        have ihr := ih o1 (some t1) x hsort.2
        constructor
        · intro e he
          obtain ⟨⟨oe, hoe⟩, hxe, hmin⟩ := ihr.1 e he
          refine ⟨⟨oe, List.mem_cons_of_mem _ hoe⟩, hxe, ?_⟩
          intro q hq hxq
          rcases List.mem_cons.mp hq with rfl | hq2
          · exact absurd hxq hx
          · exact hmin q hq2 hxq
        · intro he q hq
          rcases List.mem_cons.mp hq with rfl | hq2
          · exact le_of_not_lt hx
          · exact ihr.2 he q hq2

/-- The offset `lookupAux` returns is the base or a transition offset. -/
theorem lookupAux_offset_src (trs : List (Int × Int)) :
    ∀ (b : Int) (lo : Option Int) (x : Int),
      (lookupAux b lo trs x).1 = b ∨ ∃ p ∈ trs, (lookupAux b lo trs x).1 = p.2 := by
  induction trs with
  | nil => intro b lo x; exact Or.inl rfl
  | cons p rest ih =>
      intro b lo x
      obtain ⟨t1, o1⟩ := p
      simp only [lookupAux]
      by_cases hx : x < t1
      · rw [if_pos hx]; exact Or.inl rfl
      · rw [if_neg hx]
        rcases ih o1 (some t1) x with h1 | h2
        · exact Or.inr ⟨(t1, o1), List.mem_cons_self _ _, h1⟩
        · obtain ⟨q, hq, hoff⟩ := h2
          exact Or.inr ⟨q, List.mem_cons_of_mem _ hq, hoff⟩

/-- In a list whose consecutive instants are at least two days apart,
every finite window `lookupAux` returns is at least two days long. -/
theorem lookupAux_window_len (trs : List (Int × Int)) :
    ∀ (b : Int) (lo : Option Int) (x s e : Int),
      List.Pairwise (fun a b : Int × Int => a.1 + 172800 ≤ b.1) trs →
      (∀ p ∈ trs, loLE lo (p.1 - 172800)) →
      (lookupAux b lo trs x).2.1 = some s →
      (lookupAux b lo trs x).2.2 = some e →
      s + 172800 ≤ e := by
  induction trs with
  | nil =>
      intro b lo x s e _ _ _ he
      simp [lookupAux] at he
  | cons p rest ih =>
      intro b lo x s e hsp hinv hs he
      obtain ⟨t1, o1⟩ := p
      rw [List.pairwise_cons] at hsp
      simp only [lookupAux] at hs he
      by_cases hx : x < t1
      · rw [if_pos hx] at hs he
        have he2 : t1 = e := by injection he
        have hi1 := hinv (t1, o1) (List.mem_cons_self _ _)
        have hlos : lo = some s := hs
        rw [hlos] at hi1
        have hst : s ≤ t1 - 172800 := hi1
        omega
      · rw [if_neg hx] at hs he
        exact ih o1 (some t1) x s e hsp.2
          (fun q hq => show t1 ≤ q.1 - 172800 by have := hsp.1 q hq; omega) hs he

/-- Looking up exactly at a transition instant of a sorted list gives
that transition's offset, with the window starting at the instant. -/
theorem lookupAux_at_instant (trs : List (Int × Int)) :
    ∀ (b : Int) (lo : Option Int) (e oe : Int),
      List.Pairwise (fun a b : Int × Int => a.1 < b.1) trs →
      (e, oe) ∈ trs →
      ∃ hi2, lookupAux b lo trs e = (oe, some e, hi2) := by
  induction trs with
  | nil => intro b lo e oe _ h; exact absurd h (List.not_mem_nil _)
  | cons p rest ih =>
      intro b lo e oe hsort hmem
      obtain ⟨t1, o1⟩ := p
      rw [List.pairwise_cons] at hsort
      rcases List.mem_cons.mp hmem with heq | hmem2
      · have he : e = t1 := congrArg Prod.fst heq
        have ho : oe = o1 := congrArg Prod.snd heq
        subst he
        subst ho
        refine ⟨rest.head?.map Prod.fst, ?_⟩
        simp only [lookupAux]
        rw [if_neg (lt_irrefl e)]
        rw [lookupAux_before rest oe (some e) e (fun q hq => hsort.1 q hq)]
      · have ht1e : t1 < e := hsort.1 (e, oe) hmem2
        simp only [lookupAux]
        rw [if_neg (show ¬e < t1 by omega)]
        exact ih o1 (some t1) e oe hsort.2 hmem2

/-- Consecutive transition instants at least two days apart, as a
computable scan. -/
def spaciousB : List (Int × Int) → Bool
  | [] => true
  | [_] => true
  | a :: b :: rest => decide (a.1 + 172800 ≤ b.1) && spaciousB (b :: rest)

/-- The zone's transitions are at least two days apart — every real
timezone satisfies this comfortably, DST periods lasting months. -/
def Zone.Spacious (z : Zone) : Prop := spaciousB z.transitions = true

instance (z : Zone) : Decidable z.Spacious := by
  unfold Zone.Spacious; infer_instance

theorem pairwise_of_spaciousB (l : List (Int × Int)) (h : spaciousB l = true) :
    List.Pairwise (fun a b : Int × Int => a.1 + 172800 ≤ b.1) l := by
  induction l with
  | nil => exact List.Pairwise.nil
  | cons a rest ih =>
      cases rest with
      | nil => exact List.pairwise_singleton _ _
      | cons q rest2 =>
          simp only [spaciousB, Bool.and_eq_true, decide_eq_true_eq] at h
          obtain ⟨hab, hrest⟩ := h
          have hp := ih hrest
          rw [List.pairwise_cons]
          refine ⟨?_, hp⟩
          intro c hc
          rcases List.mem_cons.mp hc with rfl | hc2
          · exact hab
          · have := (List.pairwise_cons.mp hp).1 c hc2
            omega

theorem Zone.Spacious.pairwise {z : Zone} (h : z.Spacious) :
    List.Pairwise (fun a b : Int × Int => a.1 + 172800 ≤ b.1) z.transitions :=
  pairwise_of_spaciousB z.transitions h

theorem Zone.Spacious.ascending {z : Zone} (h : z.Spacious) :
    List.Pairwise (fun a b : Int × Int => a.1 < b.1) z.transitions :=
  h.pairwise.imp (fun hab => by omega)

/-- Every offset the zone can report (base and transition offsets) is
within one day, as for every real timezone. -/
def Zone.OffsetsBounded (z : Zone) : Prop :=
  (-86400 ≤ z.base ∧ z.base ≤ 86400) ∧ ∀ p ∈ z.transitions, -86400 ≤ p.2 ∧ p.2 ≤ 86400

instance (z : Zone) : Decidable z.OffsetsBounded := by
  unfold Zone.OffsetsBounded; infer_instance

theorem offsetAt_bounded (z : Zone) (hbd : z.OffsetsBounded) (t : Int) :
    -86400 ≤ z.offsetAt t ∧ z.offsetAt t ≤ 86400 := by
  unfold Zone.offsetAt Zone.lookup
  rcases lookupAux_offset_src z.transitions z.base none t with h | ⟨p, hp, h⟩
  · rw [h]; exact hbd.1
  · rw [h]; exact hbd.2 p hp

/-- The requested wall-clock value `u` falls in a spring-forward gap of
zone `z`: at the zone-window boundary adjacent to the pseudo-instant
`u`, the offset increases across the wall value `u`, so no instant of
the zone shows local wall clock `u`. -/
def Zone.inGapB (z : Zone) (u : Int) : Bool :=
  (match (z.lookup u).2.2 with
   | some e => decide ((z.lookup u).1 + e ≤ u ∧ u < e + (z.lookup e).1)
   | none => false)
  || (match (z.lookup u).2.1 with
      | some s => decide ((z.lookup (s - 1)).1 + s ≤ u ∧ u < s + (z.lookup u).1)
      | none => false)

theorem inGapB_hi (z : Zone) (u e : Int) (hgap : z.inGapB u = false)
    (he : (z.lookup u).2.2 = some e) :
    ¬((z.lookup u).1 + e ≤ u ∧ u < e + (z.lookup e).1) := by
  intro hcon
  unfold Zone.inGapB at hgap
  rw [he] at hgap
  simp only [Bool.or_eq_false_iff, decide_eq_false_iff_not] at hgap
  exact hgap.1 hcon

theorem inGapB_lo (z : Zone) (u s : Int) (hgap : z.inGapB u = false)
    (hs : (z.lookup u).2.1 = some s) :
    ¬((z.lookup (s - 1)).1 + s ≤ u ∧ u < s + (z.lookup u).1) := by
  intro hcon
  unfold Zone.inGapB at hgap
  rw [hs] at hgap
  simp only [Bool.or_eq_false_iff, decide_eq_false_iff_not] at hgap
  exact hgap.2 hcon

/-- Core round trip of `time.Date`: in a zone with well-spaced
transitions and day-bounded offsets, resolving a requested wall-clock
value that is not in a spring-forward gap yields an instant whose local
wall clock is exactly the requested value. -/
theorem goDate_wall (z : Zone) (u : Int) (hsp : z.Spacious) (hbd : z.OffsetsBounded)
    (hgap : z.inGapB u = false) : z.wallAt (goDate z u) = u := by
  have hsort := hsp.ascending
  have hpw := hsp.pairwise
  rcases hlk : z.lookup u with ⟨o, lo, hi⟩
  have hlk' : lookupAux z.base none z.transitions u = (o, lo, hi) := hlk
  have hmem := lookupAux_mem z.transitions z.base none u trivial
  rw [hlk'] at hmem
  obtain ⟨hlou, hhiu⟩ := hmem
  by_cases ho : o = 0
  · have hgd : goDate z u = u := by
      simp [goDate, hlk, ho]
    rw [hgd]
    simp [Zone.wallAt, Zone.offsetAt, hlk, ho]
  · cases hbl : belowLo lo (u - o) with
    | true =>
        -- the pseudo-UTC falls before the window found for u:
        -- Go re-looks-up just before the window start
        rcases lo with _ | s
        · simp [belowLo] at hbl
        · have hus : u - o < s := by simpa [belowLo] using hbl
          have hsu : s ≤ u := hlou
          have hgd : goDate z u = u - (z.lookup (s - 1)).1 := by
            simp [goDate, hlk, ho, hbl]
          have hgap2 := inGapB_lo z u s hgap (by rw [hlk])
          have hup : u < s + (z.lookup (s - 1)).1 := by
            by_contra hcon
            push_neg at hcon
            refine hgap2 ⟨by omega, ?_⟩
            rw [hlk]
            show u < s + o
            omega
          obtain ⟨os, hos⟩ : ∃ os, (s, os) ∈ z.transitions := by
            rcases lookupAux_lo_src z.transitions z.base none u s (by rw [hlk']) with h | h
            · exact absurd h (by simp)
            · exact h
          rcases hlk2 : z.lookup (s - 1) with ⟨pv, lo2, hi2⟩
          have hlk2' : lookupAux z.base none z.transitions (s - 1) = (pv, lo2, hi2) := hlk2
          rw [hlk2] at hup
          have hup2 : u < s + pv := hup
          have hmem2 := lookupAux_mem z.transitions z.base none (s - 1) trivial
          rw [hlk2'] at hmem2
          obtain ⟨hlo2, hhi2⟩ := hmem2
          have hhis := lookupAux_hi_src z.transitions z.base none (s - 1) hsort
          rw [hlk2'] at hhis
          have hhi2s : hi2 = some s := by
            cases hi2 with
            | none =>
                have h2 : s ≤ s - 1 := hhis.2 rfl (s, os) hos
                omega
            | some e2 =>
                obtain ⟨_, hxe, hmin⟩ := hhis.1 e2 rfl
                have he2s : e2 ≤ s := hmin (s, os) hos (show s - 1 < s by omega)
                have hse2 : s - 1 < e2 := hxe
                exact congrArg some (by omega : e2 = s)
          have hpb : -86400 ≤ pv ∧ pv ≤ 86400 := by
            have hb := offsetAt_bounded z hbd (s - 1)
            unfold Zone.offsetAt at hb
            rw [hlk2] at hb
            exact hb
          obtain ⟨hpb1, hpb2⟩ := hpb
          have hres : u - pv < s := by omega
          have hlo2r : loLE lo2 (u - pv) := by
            cases lo2 with
            | none => trivial
            | some s0 =>
                have hlen := lookupAux_window_len z.transitions z.base none (s - 1) s0 s
                  hpw (fun q hq => trivial) (by rw [hlk2']) (by rw [hlk2']; exact hhi2s)
                show s0 ≤ u - pv
                omega
          have hhir : hiGT hi2 (u - pv) := by
            rw [hhi2s]
            show u - pv < s
            exact hres
          have hconst := lookupAux_const z.transitions z.base none (s - 1) (u - pv) hsort
            (by rw [hlk2']; exact hlo2r) (by rw [hlk2']; exact hhir)
          rw [hlk2'] at hconst
          rw [hgd, hlk2]
          show (u - pv) + z.offsetAt (u - pv) = u
          unfold Zone.offsetAt Zone.lookup
          rw [hconst]
          show u - pv + pv = u
          omega
    | false =>
        cases hph : atOrPastHi hi (u - o) with
        | true =>
            -- the pseudo-UTC falls at or past the window end:
            -- Go re-looks-up at the window end
            rcases hi with _ | e
            · simp [atOrPastHi] at hph
            · have heu : e ≤ u - o := by simpa [atOrPastHi] using hph
              have hue : u < e := hhiu
              have hgd : goDate z u = u - (z.lookup e).1 := by
                simp [goDate, hlk, ho, hbl, hph]
              have hhis := lookupAux_hi_src z.transitions z.base none u hsort
              rw [hlk'] at hhis
              obtain ⟨⟨oe, hoe⟩, _, _⟩ := hhis.1 e rfl
              obtain ⟨hi3, hlk3⟩ := lookupAux_at_instant z.transitions z.base none e oe hsort hoe
              have hlk3' : z.lookup e = (oe, some e, hi3) := hlk3
              have hgap3 := inGapB_hi z u e hgap (by rw [hlk])
              have hge : e + oe ≤ u := by
                by_contra hcon
                push_neg at hcon
                refine hgap3 ⟨?_, ?_⟩
                · rw [hlk]
                  show o + e ≤ u
                  omega
                · rw [hlk3']
                  show u < e + oe
                  omega
              obtain ⟨hoe1, hoe2⟩ := hbd.2 (e, oe) hoe
              have hhir : hiGT hi3 (u - oe) := by
                cases hi3 with
                | none => trivial
                | some e3 =>
                    have hlen := lookupAux_window_len z.transitions z.base none e e e3
                      hpw (fun q hq => trivial) (by rw [hlk3]) (by rw [hlk3])
                    show u - oe < e3
                    omega
              have hconst := lookupAux_const z.transitions z.base none e (u - oe) hsort
                (by rw [hlk3]; show e ≤ u - oe; omega) (by rw [hlk3]; exact hhir)
              rw [hlk3] at hconst
              rw [hgd, hlk3']
              show (u - oe) + z.offsetAt (u - oe) = u
              unfold Zone.offsetAt Zone.lookup
              rw [hconst]
              show u - oe + oe = u
              omega
        | false =>
            -- the pseudo-UTC already lies inside the window found for u
            have hgd : goDate z u = u - o := by
              simp [goDate, hlk, ho, hbl, hph]
            have hlor : loLE lo (u - o) := by
              cases lo with
              | none => trivial
              | some s =>
                  simp only [belowLo, decide_eq_false_iff_not] at hbl
                  show s ≤ u - o
                  omega
            have hhir : hiGT hi (u - o) := by
              cases hi with
              | none => trivial
              | some e =>
                  simp only [atOrPastHi, decide_eq_false_iff_not] at hph
                  show u - o < e
                  omega
            have hconst := lookupAux_const z.transitions z.base none u (u - o) hsort
              (by rw [hlk']; exact hlor) (by rw [hlk']; exact hhir)
            rw [hlk'] at hconst
            rw [hgd]
            show (u - o) + z.offsetAt (u - o) = u
            unfold Zone.offsetAt Zone.lookup
            rw [hconst]
            show u - o + o = u
            omega

/-- Amended claim C6: for every `TimeSpec` whose code resolves to a zone
with well-spaced transitions and day-bounded offsets (true of every real
timezone, DST or fixed-offset alike), and for every reference instant
such that the specified wall-clock time does not fall in a
spring-forward gap on the reference date, `ResolveTime` succeeds and
reading the resulting instant's hour and minute back in the spec's own
zone reproduces the specified values exactly.  In particular DST zones
round-trip at every non-gap wall time; only gap wall times fail — see
the counterexample. -/
theorem c6_ResolveTime_roundtrip (ts : TimeSpec) (ref : Int) (n : String) (z : Zone)
    (h1 : IATA ts.IATA = some n) (h2 : loadLocation n = some z)
    (hsp : z.Spacious) (hbd : z.OffsetsBounded)
    (h4 : 0 ≤ ts.Hour) (h5 : ts.Hour ≤ 23) (h6 : 0 ≤ ts.Minute) (h7 : ts.Minute ≤ 59)
    (hgap : z.inGapB (z.dayAt ref * 86400 + ts.Hour * 3600 + ts.Minute * 60) = false) :
    ∃ t, ResolveTime IATA loadLocation ts ref = Except.ok t ∧
      z.hourAt t = ts.Hour ∧ z.minuteAt t = ts.Minute := by
  refine ⟨goDate z (z.dayAt ref * 86400 + ts.Hour * 3600 + ts.Minute * 60),
    by simp [ResolveTime, h1, h2], ?_, ?_⟩
  · have hw := goDate_wall z (z.dayAt ref * 86400 + ts.Hour * 3600 + ts.Minute * 60) hsp hbd hgap
    unfold Zone.hourAt
    rw [hw]
    omega
  · have hw := goDate_wall z (z.dayAt ref * 86400 + ts.Hour * 3600 + ts.Minute * 60) hsp hbd hgap
    unfold Zone.minuteAt
    rw [hw]
    omega

/-- Witness for C6 at `SFO@9:00` (America/Los_Angeles, a DST zone),
resolved against a reference on 2024-03-10 — the spring-forward day
itself: 09:00 lies outside the gap and round-trips exactly. -/
theorem c6_witness :
    ∃ t, ResolveTime table0 load0 ⟨"SFO", 9, 0⟩ 1710061200 = Except.ok t ∧
      zLosAngeles.hourAt t = 9 ∧ zLosAngeles.minuteAt t = 0 :=
  c6_ResolveTime_roundtrip table0 load0 ⟨"SFO", 9, 0⟩ 1710061200 "America/Los_Angeles"
    zLosAngeles (by decide) (by decide) (by decide) (by decide)
    (by decide) (by decide) (by decide) (by decide) (by decide)

/-- Counterexample to C6 as stated: `SFO@2:30` resolved against a
reference on 2024-03-10 (the America/Los_Angeles spring-forward date,
where wall time 02:30 does not exist) yields an instant whose local hour
reads 1, not the specified 2. -/
theorem c6_counterexample :
    table0 "SFO" = some "America/Los_Angeles"
    ∧ load0 "America/Los_Angeles" = some zLosAngeles
    ∧ ResolveTime table0 load0 ⟨"SFO", 2, 30⟩ 1710061200 = Except.ok 1710063000
    ∧ zLosAngeles.hourAt 1710063000 = 1
    ∧ zLosAngeles.minuteAt 1710063000 = 30
    ∧ (1 : Int) ≠ 2 := by
  refine ⟨rfl, rfl, by rfl, by decide, by decide, by decide⟩



/-! ### Claim C5: ParseTimeSpec -/

/-- Modelled from the amended claim's words: after `CODE@`, the tail must
be a 1-2 digit hour, an optional colon, and an optional exactly-2-digit
minute group, colon and minutes each independently optional — eight
concrete shapes in all. -/
def amendedTail (cs : List Char) : Option (List Char × Option (Char × Char)) :=
  match cs with
  | [a] => if isDigitChar a then some ([a], none) else none
  | [a, b] =>
      if isDigitChar a ∧ isDigitChar b then some ([a, b], none)
      else if isDigitChar a ∧ b = ':' then some ([a], none)
      else none
  | [a, b, c] =>
      if isDigitChar a ∧ isDigitChar b ∧ c = ':' then some ([a, b], none)
      else if isDigitChar a ∧ isDigitChar b ∧ isDigitChar c then some ([a], some (b, c))
      else none
  | [a, b, c, d] =>
      if isDigitChar a ∧ b = ':' ∧ isDigitChar c ∧ isDigitChar d then some ([a], some (c, d))
      else if isDigitChar a ∧ isDigitChar b ∧ isDigitChar c ∧ isDigitChar d then
        some ([a, b], some (c, d))
      else none
  | [a, b, c, d, e] =>
      if isDigitChar a ∧ isDigitChar b ∧ c = ':' ∧ isDigitChar d ∧ isDigitChar e then
        some ([a, b], some (d, e))
      else none
  | _ => none

theorem digit_not_colon (x : Char) (h : isDigitChar x = true) : ¬x = ':' := by
  intro hx
  subst hx
  exact absurd h (by decide)

theorem colon_not_digit : isDigitChar ':' = false := by decide

theorem matchMinOpt_long (a b c : Char) (rest : List Char) :
    matchMinOpt (a :: b :: c :: rest) = none := by
  simp [matchMinOpt, matchEnd, Option.orElse]

theorem matchColonOpt_long (a b c d : Char) (rest : List Char) :
    matchColonOpt (a :: b :: c :: d :: rest) = none := by
  simp only [matchColonOpt]
  by_cases ha : a = ':'
  · rw [if_pos ha, matchMinOpt_long, matchMinOpt_long]
    rfl
  · rw [if_neg ha, matchMinOpt_long]

theorem matchHourTail_long (a b c d e f : Char) (rest : List Char) :
    matchHourTail (a :: b :: c :: d :: e :: f :: rest) = none := by
  simp [matchHourTail, matchColonOpt_long, Option.orElse]

theorem hourTail_eq (cs : List Char) : matchHourTail cs = amendedTail cs := by
  match cs with
  | [] => rfl
  | [a] =>
      by_cases da : isDigitChar a = true <;>
        simp [matchHourTail, matchColonOpt, matchMinOpt, matchEnd, amendedTail,
          Option.orElse, colon_not_digit, da]
  | [a, b] =>
      by_cases da : isDigitChar a = true <;>
        by_cases db : isDigitChar b = true <;>
        by_cases hb : b = ':' <;>
        first
          | exact absurd hb (digit_not_colon b db)
          | simp [matchHourTail, matchColonOpt, matchMinOpt, matchEnd, amendedTail,
              Option.orElse, colon_not_digit, da, db, hb]
  | [a, b, c] =>
      by_cases da : isDigitChar a = true <;>
        by_cases db : isDigitChar b = true <;>
        by_cases dc : isDigitChar c = true <;>
        by_cases hb : b = ':' <;>
        by_cases hc : c = ':' <;>
        first
          | exact absurd hb (digit_not_colon b db)
          | exact absurd hc (digit_not_colon c dc)
          | simp [matchHourTail, matchColonOpt, matchMinOpt, matchEnd, amendedTail,
              Option.orElse, colon_not_digit, da, db, dc, hb, hc]
  | [a, b, c, d] =>
      by_cases da : isDigitChar a = true <;>
        by_cases db : isDigitChar b = true <;>
        by_cases dc : isDigitChar c = true <;>
        by_cases dd : isDigitChar d = true <;>
        by_cases hb : b = ':' <;>
        by_cases hc : c = ':' <;>
        first
          | exact absurd hb (digit_not_colon b db)
          | exact absurd hc (digit_not_colon c dc)
          | simp [matchHourTail, matchColonOpt, matchMinOpt, matchEnd, amendedTail,
              Option.orElse, colon_not_digit, da, db, dc, dd, hb, hc]
  | [a, b, c, d, e] =>
      by_cases da : isDigitChar a = true <;>
        by_cases db : isDigitChar b = true <;>
        by_cases dc : isDigitChar c = true <;>
        by_cases dd : isDigitChar d = true <;>
        by_cases de : isDigitChar e = true <;>
        by_cases hb : b = ':' <;>
        by_cases hc : c = ':' <;>
        by_cases hd : d = ':' <;>
        first
          | exact absurd hb (digit_not_colon b db)
          | exact absurd hc (digit_not_colon c dc)
          | exact absurd hd (digit_not_colon d dd)
          | simp [matchHourTail, matchColonOpt, matchMinOpt, matchEnd, amendedTail,
              Option.orElse, colon_not_digit, da, db, dc, dd, de, hb, hc, hd]
  | a :: b :: c :: d :: e :: f :: rest =>
      rw [matchHourTail_long]
      rfl

/-- The amended-claim matcher: 3-letter code, `@`, amended tail shapes. -/
def amendedMatch (s : String) :
    Option (List Char × List Char × Option (Char × Char)) :=
  match s.data with
  | c1 :: c2 :: c3 :: c4 :: rest =>
      if c4 = '@' ∧ isAsciiLetter c1 ∧ isAsciiLetter c2 ∧ isAsciiLetter c3 then
        (amendedTail rest).map (fun hm => ([c1, c2, c3], hm.1, hm.2))
      else none
  | _ => none

/-- The amended-claim parser: amended shapes, then the same capture
processing as the source. -/
def amendedTimeSpecParse (s : String) : Option TimeSpec :=
  match amendedMatch s with
  | none => none
  | some (code, hourDigits, minPair) => specFromCaptures code hourDigits minPair

/-- Modelled from the original claim's words: the tail of `CODE@H[:MM]`,
the colon and the exactly-2-digit minute present together or not at
all. -/
def claimedTail (cs : List Char) : Option (List Char × Option (Char × Char)) :=
  match cs with
  | [a] => if isDigitChar a then some ([a], none) else none
  | [a, b] => if isDigitChar a ∧ isDigitChar b then some ([a, b], none) else none
  | [a, b, c, d] =>
      if isDigitChar a ∧ b = ':' ∧ isDigitChar c ∧ isDigitChar d then some ([a], some (c, d))
      else none
  | [a, b, c, d, e] =>
      if isDigitChar a ∧ isDigitChar b ∧ c = ':' ∧ isDigitChar d ∧ isDigitChar e then
        some ([a, b], some (d, e))
      else none
  | _ => none

/-- The original-claim matcher: 3-letter code, `@`, `H[:MM]` tail. -/
def claimedMatch (s : String) :
    Option (List Char × List Char × Option (Char × Char)) :=
  match s.data with
  | c1 :: c2 :: c3 :: c4 :: rest =>
      if c4 = '@' ∧ isAsciiLetter c1 ∧ isAsciiLetter c2 ∧ isAsciiLetter c3 then
        (claimedTail rest).map (fun hm => ([c1, c2, c3], hm.1, hm.2))
      else none
  | _ => none

/-- The original-claim parser (`CODE@H[:MM]` exactly). -/
def claimedTimeSpecParse (s : String) : Option TimeSpec :=
  match claimedMatch s with
  | none => none
  | some (code, hourDigits, minPair) => specFromCaptures code hourDigits minPair

theorem timeSpecMatch_eq (s : String) : timeSpecMatch s = amendedMatch s := by
  unfold timeSpecMatch amendedMatch
  rcases hs : s.data with _ | ⟨c1, _ | ⟨c2, _ | ⟨c3, _ | ⟨c4, rest⟩⟩⟩⟩ <;> try rfl
  simp only [hourTail_eq]

/-- Amended claim C5: `ParseTimeSpec` accepts exactly the strings
`CODE@` followed by a 1-2 digit hour, an optional colon and an optional
exactly-2-digit minute group, colon and minutes each INDEPENDENTLY
optional (so `SFO@912`, `SFO@1230` and `SFO@9:` also parse); the code is
case-insensitively uppercased, hours above 23 and minutes above 59 are
rejected, and every other string yields the `none` sentinel.  The spec's
three examples are included as closed conjuncts. -/
theorem c5_ParseTimeSpec (s : String) :
    ParseTimeSpec s = amendedTimeSpecParse s
    ∧ ParseTimeSpec "SFO@9:00" = some ⟨"SFO", 9, 0⟩
    ∧ ParseTimeSpec "SFO" = none
    ∧ ParseTimeSpec "SFO@25:00" = none
    ∧ ParseTimeSpec "sfo@7" = some ⟨"SFO", 7, 0⟩ := by
  refine ⟨?_, by decide, by decide, by decide, by decide⟩
  unfold ParseTimeSpec amendedTimeSpecParse
  rw [timeSpecMatch_eq]

/-- Counterexample to C5 as stated: `SFO@912` and `SFO@9:` are not of
the claimed `CODE@H[:MM]` shape (minutes without the colon, and colon
without minutes), yet `ParseTimeSpec` accepts both instead of returning
the sentinel. -/
theorem c5_counterexample :
    claimedTimeSpecParse "SFO@912" = none
    ∧ ParseTimeSpec "SFO@912" = some ⟨"SFO", 9, 12⟩
    ∧ claimedTimeSpecParse "SFO@9:" = none
    ∧ ParseTimeSpec "SFO@9:" = some ⟨"SFO", 9, 0⟩ := by
  exact ⟨by decide, by decide, by decide, by decide⟩


/-! ### Claim C9: ParseWorkHours -/

/-- A 1-2 digit number, two digits preferred (the claim's `H` field). -/
def parseHourNum (cs : List Char) : Option (Int × List Char) :=
  match cs with
  | a :: b :: rest =>
      if isDigitChar a ∧ isDigitChar b then some (digitVal a * 10 + digitVal b, rest)
      else if isDigitChar a then some (digitVal a, b :: rest)
      else none
  | [a] => if isDigitChar a then some (digitVal a, []) else none
  | [] => none

/-- An exactly-2-digit number (the claim's `MM` field). -/
def parseMinNum (cs : List Char) : Option (Int × List Char) :=
  match cs with
  | a :: b :: rest =>
      if isDigitChar a ∧ isDigitChar b then some (digitVal a * 10 + digitVal b, rest)
      else none
  | _ => none

/-- Modelled from the original claim's words: the whole string is
`H:MM-H:MM`, start hour in [0,23], end hour in [0,24], minutes in [0,59]
validated but discarded. -/
def claimedWorkHoursColon (cs : List Char) : Option WorkHours :=
  (parseHourNum cs).bind fun p1 =>
  (scanLit ':' p1.2).bind fun r1 =>
  (parseMinNum r1).bind fun p2 =>
  (scanLit '-' p2.2).bind fun r2 =>
  (parseHourNum r2).bind fun p3 =>
  (scanLit ':' p3.2).bind fun r3 =>
  (parseMinNum r3).bind fun p4 =>
  (matchEnd p4.2).bind fun _ =>
  if p1.1 < 0 ∨ p1.1 > 23 ∨ p3.1 < 0 ∨ p3.1 > 24 then none
  else if p2.1 < 0 ∨ p2.1 > 59 ∨ p4.1 < 0 ∨ p4.1 > 59 then none
  else some ⟨p1.1, p3.1⟩

/-- Modelled from the original claim's words: the whole string is `H-H`,
start hour in [0,23], end hour in [0,24]. -/
def claimedWorkHoursPlain (cs : List Char) : Option WorkHours :=
  (parseHourNum cs).bind fun p1 =>
  (scanLit '-' p1.2).bind fun r1 =>
  (parseHourNum r1).bind fun p2 =>
  (matchEnd p2.2).bind fun _ =>
  if p1.1 < 0 ∨ p1.1 > 23 ∨ p2.1 < 0 ∨ p2.1 > 24 then none
  else some ⟨p1.1, p2.1⟩

/-- Modelled from the original claim's words: exactly the strings of the
form `H-H` or `H:MM-H:MM`. -/
def claimedWorkHours (s : String) : Option WorkHours :=
  (claimedWorkHoursColon s.data).orElse (fun _ => claimedWorkHoursPlain s.data)

theorem digit_ne_of (c d : Char) (h : isDigitChar c = true)
    (hd : isDigitChar d = false) : ¬c = d := by
  intro he
  rw [he, hd] at h
  cases h

theorem digit_not_blank (c : Char) (h : isDigitChar c = true) :
    isBlankChar c = false := by
  by_cases h1 : c = ' '
  · subst h1; cases h
  · by_cases h2 : c = '\t'
    · subst h2; cases h
    · simp [isBlankChar, h1, h2]

theorem dropBlanks_cons (c : Char) (cs : List Char) (h : isBlankChar c = false) :
    dropBlanks (c :: cs) = c :: cs := by
  unfold dropBlanks
  rw [h]
  simp

theorem takeDigits_spec (ds rest : List Char)
    (hds : ∀ c ∈ ds, isDigitChar c = true)
    (hrest : ∀ c ∈ rest.head?, isDigitChar c = false) :
    takeDigits (ds ++ rest) = (ds, rest) := by
  induction ds with
  | nil =>
      match rest with
      | [] => rfl
      | c :: cs2 =>
          have hc := hrest c (by simp)
          simp only [List.nil_append, takeDigits]
          rw [hc]
          simp
  | cons d ds2 ih =>
      have hd := hds d (by simp)
      simp only [List.cons_append, takeDigits]
      rw [hd]
      simp only [List.append_eq]
      rw [ih (fun c hc => hds c (by simp [hc]))]
      simp

theorem scanInt_digits (ds rest : List Char) (hne : ds ≠ [])
    (hds : ∀ c ∈ ds, isDigitChar c = true)
    (hrest : ∀ c ∈ rest.head?, isDigitChar c = false) :
    scanInt (ds ++ rest) = some (digitsToInt ds, rest) := by
  match ds, hne with
  | d :: ds2, _ =>
      have hd := hds d (by simp)
      simp only [List.cons_append, scanInt]
      simp only [dropBlanks_cons d _ (digit_not_blank d hd)]
      rw [if_neg (digit_ne_of d '-' hd (by decide)),
        if_neg (digit_ne_of d '+' hd (by decide))]
      unfold scanDigits
      rw [show d :: (ds2 ++ rest) = (d :: ds2) ++ rest from rfl]
      rw [takeDigits_spec (d :: ds2) rest hds hrest]
      simp

theorem scanLit_some (c : Char) (cs rest : List Char)
    (h : scanLit c cs = some rest) : cs = c :: rest := by
  match cs with
  | [] => cases h
  | c2 :: rest2 =>
      simp only [scanLit] at h
      split_ifs at h with hc
      · injection h with h2
        rw [hc, h2]

theorem matchEnd_some (cs : List Char) (u : Unit) (h : matchEnd cs = some u) :
    cs = [] := by
  match cs with
  | [] => rfl
  | c :: rest => cases h

theorem parseHourNum_some (cs : List Char) (v : Int) (rest : List Char)
    (h : parseHourNum cs = some (v, rest)) :
    ∃ ds, cs = ds ++ rest ∧ ds ≠ [] ∧ (∀ c ∈ ds, isDigitChar c = true) ∧
      digitsToInt ds = v := by
  match cs with
  | [] => cases h
  | [a] =>
      simp only [parseHourNum] at h
      split_ifs at h with ha
      · injection h with h2
        rw [Prod.mk.injEq] at h2
        obtain ⟨hv, hr⟩ := h2
        refine ⟨[a], by simp [← hr], by simp, ?_, ?_⟩
        · intro c hc
          simp at hc
          subst hc
          exact ha
        · simp [digitsToInt, hv]
  | a :: b :: rest2 =>
      simp only [parseHourNum] at h
      split_ifs at h with hab ha
      · injection h with h2
        rw [Prod.mk.injEq] at h2
        obtain ⟨hv, hr⟩ := h2
        refine ⟨[a, b], by simp [← hr], by simp, ?_, ?_⟩
        · intro c hc
          simp at hc
          rcases hc with rfl | rfl
          · exact hab.1
          · exact hab.2
        · simp [digitsToInt, ← hv]
      · injection h with h2
        rw [Prod.mk.injEq] at h2
        obtain ⟨hv, hr⟩ := h2
        refine ⟨[a], by simp [← hr], by simp, ?_, ?_⟩
        · intro c hc
          simp at hc
          subst hc
          exact ha
        · simp [digitsToInt, hv]

theorem parseMinNum_some (cs : List Char) (v : Int) (rest : List Char)
    (h : parseMinNum cs = some (v, rest)) :
    ∃ m1 m2, cs = m1 :: m2 :: rest ∧ isDigitChar m1 = true ∧ isDigitChar m2 = true ∧
      digitsToInt [m1, m2] = v := by
  match cs with
  | [] => cases h
  | [a] => cases h
  | a :: b :: rest2 =>
      simp only [parseMinNum] at h
      split_ifs at h with hab
      · injection h with h2
        rw [Prod.mk.injEq] at h2
        obtain ⟨hv, hr⟩ := h2
        exact ⟨a, b, by simp [← hr], hab.1, hab.2, by simp [digitsToInt, ← hv]⟩

theorem claimedPlain_accepted (s : String) (wh : WorkHours)
    (h : claimedWorkHoursPlain s.data = some wh) : ParseWorkHours s = some wh := by
  simp only [claimedWorkHoursPlain, Option.bind_eq_some] at h
  obtain ⟨⟨v1, rest1⟩, hp1, r1, hr1, ⟨v2, rest2⟩, hp2, u, hu, hfin⟩ := h
  obtain ⟨ds1, hcs, hne1, hdig1, hval1⟩ := parseHourNum_some _ _ _ hp1
  have hrest1 : rest1 = '-' :: r1 := scanLit_some _ _ _ hr1
  obtain ⟨ds2, hr1eq, hne2, hdig2, hval2⟩ := parseHourNum_some _ _ _ hp2
  have hrest2 : rest2 = [] := matchEnd_some _ _ hu
  split_ifs at hfin with hcond
  injection hfin with hwh
  have hcond2 : ¬(v1 < 0 ∨ v1 > 23 ∨ v2 < 0 ∨ v2 > 24) := hcond
  have hsdata : s.data = ds1 ++ '-' :: ds2 := by
    rw [hcs, hrest1, hr1eq, hrest2, List.append_nil]
  have h1 : scanInt (ds1 ++ '-' :: ds2) = some (v1, '-' :: ds2) := by
    have := scanInt_digits ds1 ('-' :: ds2) hne1 hdig1 (by intro c hc; simp at hc; subst hc; decide)
    rw [hval1] at this
    exact this
  have h2 : scanInt ds2 = some (v2, []) := by
    have := scanInt_digits ds2 [] hne2 hdig2 (by intro c hc; simp at hc)
    rw [hval2, List.append_nil] at this
    exact this
  have hm : sscanfHMHM (ds1 ++ '-' :: ds2) = none := by
    simp [sscanfHMHM, h1, scanLit]
  have hh : sscanfHH (ds1 ++ '-' :: ds2) = some (v1, v2) := by
    simp [sscanfHH, h1, scanLit, h2]
  simp only [ParseWorkHours, hsdata, hm, hh]
  rw [if_neg hcond2]
  exact congrArg some hwh

theorem claimedColon_accepted (s : String) (wh : WorkHours)
    (h : claimedWorkHoursColon s.data = some wh) : ParseWorkHours s = some wh := by
  simp only [claimedWorkHoursColon, Option.bind_eq_some] at h
  obtain ⟨⟨v1, rest1⟩, hp1, r1, hr1, ⟨vm1, restm1⟩, hp2, r2, hr2, ⟨v2, rest2⟩, hp3,
    r3, hr3, ⟨vm2, restm2⟩, hp4, u, hu, hfin⟩ := h
  obtain ⟨ds1, hcs, hne1, hdig1, hval1⟩ := parseHourNum_some _ _ _ hp1
  have hrest1 : rest1 = ':' :: r1 := scanLit_some _ _ _ hr1
  obtain ⟨m1, m2, hr1eq, hm1, hm2, hvm1⟩ := parseMinNum_some _ _ _ hp2
  have hrestm1 : restm1 = '-' :: r2 := scanLit_some _ _ _ hr2
  obtain ⟨ds2, hr2eq, hne2, hdig2, hval2⟩ := parseHourNum_some _ _ _ hp3
  have hrest2 : rest2 = ':' :: r3 := scanLit_some _ _ _ hr3
  obtain ⟨m3, m4, hr3eq, hm3, hm4, hvm2⟩ := parseMinNum_some _ _ _ hp4
  have hrestm2 : restm2 = [] := matchEnd_some _ _ hu
  split_ifs at hfin with hcond1 hcond2
  injection hfin with hwh
  have hcondA : ¬(v1 < 0 ∨ v1 > 23 ∨ v2 < 0 ∨ v2 > 24) := hcond1
  have hcondB : ¬(vm1 < 0 ∨ vm1 > 59 ∨ vm2 < 0 ∨ vm2 > 59) := hcond2
  have hsdata : s.data = ds1 ++ ':' :: m1 :: m2 :: '-' :: (ds2 ++ ':' :: [m3, m4]) := by
    rw [hcs, hrest1, hr1eq, hrestm1, hr2eq, hrest2, hr3eq, hrestm2]
  have h1 : scanInt (ds1 ++ ':' :: m1 :: m2 :: '-' :: (ds2 ++ ':' :: [m3, m4])) =
      some (v1, ':' :: m1 :: m2 :: '-' :: (ds2 ++ ':' :: [m3, m4])) := by
    have := scanInt_digits ds1 (':' :: m1 :: m2 :: '-' :: (ds2 ++ ':' :: [m3, m4]))
      hne1 hdig1 (by intro c hc; simp at hc; subst hc; decide)
    rw [hval1] at this
    exact this
  have h2 : scanInt (m1 :: m2 :: '-' :: (ds2 ++ ':' :: [m3, m4])) =
      some (vm1, '-' :: (ds2 ++ ':' :: [m3, m4])) := by
    have := scanInt_digits [m1, m2] ('-' :: (ds2 ++ ':' :: [m3, m4])) (by simp)
      (by
        intro c hc
        simp at hc
        rcases hc with rfl | rfl
        · exact hm1
        · exact hm2)
      (by intro c hc; simp at hc; subst hc; decide)
    rw [hvm1] at this
    exact this
  have h3 : scanInt (ds2 ++ ':' :: [m3, m4]) = some (v2, ':' :: [m3, m4]) := by
    have := scanInt_digits ds2 (':' :: [m3, m4]) hne2 hdig2
      (by intro c hc; simp at hc; subst hc; decide)
    rw [hval2] at this
    exact this
  have h4 : scanInt [m3, m4] = some (vm2, []) := by
    have := scanInt_digits [m3, m4] [] (by simp)
      (by
        intro c hc
        simp at hc
        rcases hc with rfl | rfl
        · exact hm3
        · exact hm4)
      (by intro c hc; simp at hc)
    rw [hvm2, List.append_nil] at this
    exact this
  have hm : sscanfHMHM (ds1 ++ ':' :: m1 :: m2 :: '-' :: (ds2 ++ ':' :: [m3, m4])) =
      some (v1, vm1, v2, vm2) := by
    simp [sscanfHMHM, h1, scanLit, h2, h3, h4]
  simp only [ParseWorkHours, hsdata, hm]
  rw [if_neg hcondA, if_neg hcondB]
  exact congrArg some hwh

theorem claimed_accepted (s : String) (wh : WorkHours)
    (h : claimedWorkHours s = some wh) : ParseWorkHours s = some wh := by
  unfold claimedWorkHours at h
  cases hc : claimedWorkHoursColon s.data with
  | some w =>
      rw [hc] at h
      simp [Option.orElse] at h
      subst h
      exact claimedColon_accepted s w hc
  | none =>
      rw [hc] at h
      simp [Option.orElse] at h
      exact claimedPlain_accepted s wh h

/-- Amended claim C9: every string of the exact form `H-H` or
`H:MM-H:MM` (hours in range, minutes validated and discarded) is
accepted with the stated hours; every accepted string has start in
[0,23] and end in [0,24]; but matching is prefix-based — `Sscanf`
ignores input after the last verb — so strings with trailing characters
such as `9-17x` are also accepted, refuting the original "accepts
exactly". -/
theorem c9_ParseWorkHours :
    (∀ s wh, claimedWorkHours s = some wh → ParseWorkHours s = some wh)
    ∧ (∀ s wh, ParseWorkHours s = some wh →
        0 ≤ wh.Start ∧ wh.Start ≤ 23 ∧ 0 ≤ wh.End ∧ wh.End ≤ 24)
    ∧ ParseWorkHours "9-17" = some ⟨9, 17⟩
    ∧ ParseWorkHours "8:00-18:00" = some ⟨8, 18⟩
    ∧ ParseWorkHours "8:99-18:00" = none
    ∧ ParseWorkHours "9-17x" = some ⟨9, 17⟩ := by
  refine ⟨claimed_accepted, ?_, by decide, by decide, by decide, by decide⟩
  intro s wh hp
  unfold ParseWorkHours at hp
  cases h4 : sscanfHMHM s.data with
  | some q =>
      obtain ⟨a, b, c, d⟩ := q
      simp only [h4] at hp
      split_ifs at hp with hc1 hc2
      injection hp with hw
      subst hw
      exact ⟨(by omega : (0 : Int) ≤ a), (by omega : (a : Int) ≤ 23),
        (by omega : (0 : Int) ≤ c), (by omega : (c : Int) ≤ 24)⟩
  | none =>
      simp only [h4] at hp
      cases h2 : sscanfHH s.data with
      | some q =>
          obtain ⟨a, b⟩ := q
          simp only [h2] at hp
          split_ifs at hp with hc1
          injection hp with hw
          subst hw
          exact ⟨(by omega : (0 : Int) ≤ a), (by omega : (a : Int) ≤ 23),
            (by omega : (0 : Int) ≤ b), (by omega : (b : Int) ≤ 24)⟩
      | none =>
          simp only [h2] at hp
          cases hp

/-- Counterexample to C9 as stated: `9-17x` is not of the form `H-H` or
`H:MM-H:MM`, yet `ParseWorkHours` accepts it. -/
theorem c9_counterexample :
    claimedWorkHours "9-17x" = none ∧ ParseWorkHours "9-17x" = some ⟨9, 17⟩ :=
  ⟨by decide, by decide⟩

/-- Witness for C9: the claimed form `8:00-18:00` is accepted with hours
8 and 18, and the accepted `9-17` satisfies the range invariant. -/
theorem c9_witness :
    ParseWorkHours "8:00-18:00" = some ⟨8, 18⟩
    ∧ (0 ≤ (9 : Int) ∧ (9 : Int) ≤ 23 ∧ 0 ≤ (17 : Int) ∧ (17 : Int) ≤ 24) :=
  ⟨c9_ParseWorkHours.1 "8:00-18:00" ⟨8, 18⟩ (by decide),
   c9_ParseWorkHours.2.1 "9-17" ⟨9, 17⟩ (by decide)⟩


/-! ### Claim C4: FindDSTTransition's reported fields -/

theorem exists_of_findSome? {α β : Type} (f : α → Option β) (l : List α) (b : β)
    (h : l.findSome? f = some b) : ∃ a ∈ l, f a = some b := by
  induction l with
  | nil => cases h
  | cons x xs ih =>
      rw [List.findSome?_cons] at h
      cases hf : f x with
      | some y =>
          simp only [hf] at h
          injection h with h2
          exact ⟨x, by simp, by rw [hf, h2]⟩
      | none =>
          simp only [hf] at h
          obtain ⟨a, ha, hfa⟩ := ih h
          exact ⟨a, by simp [ha], hfa⟩

theorem mk_transition_fields (z : Zone) (t : Int) (w : Nat) (checkTime prevHour : Int)
    (heq : ¬z.offsetAt prevHour = z.offsetAt checkTime)
    (hskip : ¬(checkTime - t < -((w : Int) * 86400) ∨ (w : Int) * 86400 < checkTime - t)) :
    ∃ prev, z.offsetAt prev ≠ z.offsetAt checkTime ∧
      formatOffsetChange (z.offsetAt checkTime - z.offsetAt prevHour) =
        formatOffsetChange (z.offsetAt checkTime - z.offsetAt prev) ∧
      dstDescription (z.offsetAt checkTime - z.offsetAt prevHour) =
        dstDescription (z.offsetAt checkTime - z.offsetAt prev) ∧
      ((0 : Int) < z.offsetAt checkTime - z.offsetAt prev ↔
        dstDescription (z.offsetAt checkTime - z.offsetAt prevHour) = "DST starts") ∧
      (z.offsetAt checkTime - z.offsetAt prev < 0 ↔
        dstDescription (z.offsetAt checkTime - z.offsetAt prevHour) = "DST ends") ∧
      goDaysUntil (checkTime - t) = goDaysUntil (checkTime - t) ∧
      -((w : Int) * 86400) ≤ checkTime - t ∧ checkTime - t ≤ (w : Int) * 86400 := by
  refine ⟨prevHour, heq, rfl, rfl, ?_, ?_, rfl, by omega, by omega⟩
  · unfold dstDescription
    by_cases hpos : (0 : Int) < z.offsetAt checkTime - z.offsetAt prevHour
    · simp [hpos]
    · rw [if_neg hpos]
      constructor
      · intro hlt
        exact absurd hlt hpos
      · intro hcon
        exact absurd hcon (by decide)
  · unfold dstDescription
    by_cases hpos : (0 : Int) < z.offsetAt checkTime - z.offsetAt prevHour
    · rw [if_pos hpos]
      constructor
      · intro hlt
        omega
      · intro hcon
        exact absurd hcon (by decide)
    · rw [if_neg hpos]
      constructor
      · intro _
        rfl
      · intro _
        have hne : z.offsetAt checkTime ≠ z.offsetAt prevHour := fun he => heq he.symm
        omega

theorem scanHour_some (z : Zone) (t : Int) (w : Nat) (checkDay dayNum : Int)
    (hour : Nat) (tr : DSTTransition)
    (h : scanHour z t w checkDay dayNum hour = some tr) :
    ∃ prev, z.offsetAt prev ≠ z.offsetAt tr.Date ∧
      tr.OffsetChange = formatOffsetChange (z.offsetAt tr.Date - z.offsetAt prev) ∧
      tr.Description = dstDescription (z.offsetAt tr.Date - z.offsetAt prev) ∧
      ((0 : Int) < z.offsetAt tr.Date - z.offsetAt prev ↔
        tr.Description = "DST starts") ∧
      (z.offsetAt tr.Date - z.offsetAt prev < 0 ↔ tr.Description = "DST ends") ∧
      tr.DaysUntil = goDaysUntil (tr.Date - t) ∧
      -((w : Int) * 86400) ≤ tr.Date - t ∧ tr.Date - t ≤ (w : Int) * 86400 := by
  simp only [scanHour] at h
  split_ifs at h with hskip h0 heq hwin heq2 hwin2
  · injection h with h2
    subst h2
    exact mk_transition_fields z t w _ _ heq hskip
  · injection h with h2
    subst h2
    exact mk_transition_fields z t w _ _ heq2 hskip

/-- Modelled from the claim's words: the remaining time to a future
transition "rounded up to whole days" — the ceiling of seconds over
86400. -/
def claimCeilDays (secs : Int) : Int := -((-secs).fdiv 86400)

/-- Amended claim C4: whenever `FindDSTTransition` finds a transition,
its offset change is `formatOffsetChange (checkOffset - prevOffset)` for
the explicitly rebuilt previous hour, its description is "DST starts"
exactly when that delta is positive and "DST ends" exactly when it is
negative, and its day-distance is `goDaysUntil (Date - t)`: the truncated
whole-hour count divided by 24, incremented (future) or decremented
(past) when the whole-hour count is not a multiple of 24 — so 25 hours
away reports 2 days and -25 hours reports -2, but fractional-hour
distances are first truncated (24.5 hours reports 1 day, not the
ceiling 2 — see the counterexample against the original claim). -/
theorem c4_FindDSTTransition (z : Zone) (t : Int) (w : Nat) (tr : DSTTransition)
    (h : FindDSTTransition z t w = some tr) :
    (∃ prev, z.offsetAt prev ≠ z.offsetAt tr.Date ∧
      tr.OffsetChange = formatOffsetChange (z.offsetAt tr.Date - z.offsetAt prev) ∧
      tr.Description = dstDescription (z.offsetAt tr.Date - z.offsetAt prev) ∧
      ((0 : Int) < z.offsetAt tr.Date - z.offsetAt prev ↔
        tr.Description = "DST starts") ∧
      (z.offsetAt tr.Date - z.offsetAt prev < 0 ↔ tr.Description = "DST ends") ∧
      tr.DaysUntil = goDaysUntil (tr.Date - t) ∧
      -((w : Int) * 86400) ≤ tr.Date - t ∧ tr.Date - t ≤ (w : Int) * 86400)
    ∧ goDaysUntil (25 * 3600) = 2
    ∧ goDaysUntil (-(25 * 3600)) = -2 := by
  refine ⟨?_, by decide, by decide⟩
  unfold FindDSTTransition at h
  obtain ⟨day, hday, hscan⟩ := exists_of_findSome? _ _ _ h
  unfold scanDay at hscan
  obtain ⟨hour, hhour, hsc⟩ := exists_of_findSome? _ _ _ hscan
  exact scanHour_some z t w _ _ hour tr hsc

/-- Counterexample to C4 as stated: in America/Los_Angeles, with the
reference 24.5 hours before the 2024 spring-forward instant, the scanner
finds the transition and reports `DaysUntil = 1`, while rounding the
remaining 24.5 hours up to whole days would give 2. -/
theorem c4_counterexample :
    FindDSTTransition zLosAngeles 1709976600 5 =
      some ⟨1710064800, 1, "+1h", "DST starts"⟩
    ∧ (1710064800 - 1709976600 : Int) = 88200
    ∧ claimCeilDays 88200 = 2
    ∧ (1 : Int) ≠ 2 := by
  refine ⟨by decide, by decide, by decide, by decide⟩

/-- Witness for C4 at America/Los_Angeles with the reference exactly 25
hours before the 2024 spring-forward instant (found transition:
2024-03-10 10:00Z, two days away, "+1h", "DST starts"). -/
theorem c4_witness :
    (∃ prev, zLosAngeles.offsetAt prev ≠ zLosAngeles.offsetAt 1710064800 ∧
      "+1h" = formatOffsetChange
          (zLosAngeles.offsetAt 1710064800 - zLosAngeles.offsetAt prev) ∧
      "DST starts" = dstDescription
          (zLosAngeles.offsetAt 1710064800 - zLosAngeles.offsetAt prev) ∧
      ((0 : Int) < zLosAngeles.offsetAt 1710064800 - zLosAngeles.offsetAt prev ↔
        "DST starts" = "DST starts") ∧
      (zLosAngeles.offsetAt 1710064800 - zLosAngeles.offsetAt prev < 0 ↔
        "DST starts" = "DST ends") ∧
      (2 : Int) = goDaysUntil (1710064800 - 1709974800) ∧
      -((5 : Int) * 86400) ≤ (1710064800 : Int) - 1709974800 ∧
      (1710064800 : Int) - 1709974800 ≤ (5 : Int) * 86400)
    ∧ goDaysUntil (25 * 3600) = 2
    ∧ goDaysUntil (-(25 * 3600)) = -2 :=
  c4_FindDSTTransition zLosAngeles 1709974800 5 ⟨1710064800, 2, "+1h", "DST starts"⟩
    (by decide)

end T
